import Mathlib

/-!
Verification of the HtmlToWp core: a shallow embedding of the
IR-to-WordPress-block-markup generator (`src/generator/block-renderer.ts`,
`src/lib/utils.ts`) and of the style-reconciliation engine
(`src/services/html-preprocessor.ts`), together with proofs of the
specified properties.

Modelling conventions:
* JavaScript strings are Lean `String` / `List Char`.
* JavaScript `number` is modelled as `Int` (all values appearing in the
  relevant code paths are integers well below 2^53, where IEEE doubles
  are exact).
* `undefined`/absent optional fields are `Option.none`; JavaScript
  truthiness tests on strings (`if (s)`) are modelled by `tstr`, which
  treats `""` like an absent value.
* Objects whose keys are created dynamically (block attribute records)
  are modelled as ordered association lists, matching JavaScript's
  insertion-order key enumeration used by `JSON.stringify`.
-/

namespace HtmlToWp

/-- Truthiness of an optional JavaScript string: `undefined` and `""` are
falsy, any other string is its own truthy value. -/
def tstr : Option String → Option String
  | some s => if s = "" then none else some s
  | none => none

/-- JavaScript `o || d` for an optional string `o` and default `d`. -/
def jsOrS (o : Option String) (d : String) : String :=
  match tstr o with
  | some s => s
  | none => d

/-- Replace every occurrence of the character `t` in `s` by the string `r`
(the model of a global single-character regex replace). -/
def substC (t : Char) (r : List Char) (s : List Char) : List Char :=
  (s.map (fun c => if c = t then r else [c])).flatten

/-- `escapeHtml` from `src/lib/utils.ts`: `&` then `<` then `>`. -/
def escapeHtml (s : String) : String :=
  String.mk (substC '>' "&gt;".data (substC '<' "&lt;".data (substC '&' "&amp;".data s.data)))

/-- `escapeAttr` from `src/lib/utils.ts`: `&` then `"` then `<` then `>`. -/
def escapeAttr (s : String) : String :=
  String.mk (substC '>' "&gt;".data (substC '<' "&lt;".data
    (substC '"' "&quot;".data (substC '&' "&amp;".data s.data))))

/-- `chunkArray` from `src/lib/utils.ts`.  The bucket count is a JS number;
for a positive integer count `Math.ceil(len / buckets)` is exactly the
natural-number ceiling used here, and for a count `≤ 0` the `for` loop
body never runs, so the result is `[]` (before and after the non-empty
filter). -/
def chunkArray {α : Type} (arr : List α) (buckets : Int) : List (List α) :=
  let b : Nat := buckets.toNat
  let chunkSize : Nat := if b = 0 then 0 else (arr.length + b - 1) / b
  (((List.range b).map (fun i => (arr.drop (i * chunkSize)).take chunkSize)).filter
    (fun c => !c.isEmpty))

/-- `PADDING_MAP` from `src/generator/block-renderer.ts`. -/
def PADDING_MAP : List (String × String) :=
  [("sm", "10px"), ("md", "20px"), ("lg", "40px"), ("xl", "60px")]

/-- `GAP_MAP` from `src/generator/block-renderer.ts`. -/
def GAP_MAP : List (String × String) :=
  [("sm", "10px"), ("md", "20px"), ("lg", "40px")]

/-- `mapFontSize` from `src/lib/utils.ts`. -/
def mapFontSize (o : Option String) : Option String :=
  match tstr o with
  | none => none
  | some s => List.lookup s [("sm", "small"), ("md", "medium"), ("lg", "large"), ("xl", "x-large")]

/-! ### JSON values and `JSON.stringify`

Block attribute records are ordered association lists of JSON values.
Only the value shapes actually stored by the renderer are modelled
(strings, numbers, booleans, nested objects). -/

inductive JVal where
  | jstr (s : String)
  | jnum (n : Int)
  | jbool (b : Bool)
  | jobj (kvs : List (String × JVal))
deriving Repr, BEq

/-- One hexadecimal digit (lowercase), for JSON control-character escapes. -/
def hexDigit (n : Nat) : Char :=
  if n < 10 then Char.ofNat (48 + n) else Char.ofNat (87 + n)

/-- JSON string-content escaping as performed by `JSON.stringify`. -/
def jsonEscapeChar (c : Char) : List Char :=
  if c = '"' then ['\\', '"']
  else if c = '\\' then ['\\', '\\']
  else if c = '\n' then ['\\', 'n']
  else if c = '\t' then ['\\', 't']
  else if c = '\r' then ['\\', 'r']
  else if c = Char.ofNat 8 then ['\\', 'b']
  else if c = Char.ofNat 12 then ['\\', 'f']
  else if c.toNat < 32 then ['\\', 'u', '0', '0', hexDigit (c.toNat / 16), hexDigit (c.toNat % 16)]
  else [c]

def jsonEscape (s : String) : String :=
  String.mk ((s.data.map jsonEscapeChar).flatten)

mutual

/-- Compact `JSON.stringify` of a value. -/
def stringifyV : JVal → String
  | .jstr s => "\"" ++ jsonEscape s ++ "\""
  | .jnum n => toString n
  | .jbool b => if b then "true" else "false"
  | .jobj kvs => "\x7b" ++ stringifyKvs kvs ++ "\x7d"

/-- Compact `JSON.stringify` of the members of an object, comma-joined. -/
def stringifyKvs : List (String × JVal) → String
  | [] => ""
  | [(k, v)] => "\"" ++ jsonEscape k ++ "\":" ++ stringifyV v
  | (k, v) :: r :: rest => "\"" ++ jsonEscape k ++ "\":" ++ stringifyV v ++ ","
      ++ stringifyKvs (r :: rest)

end

mutual

/-- `cleanObj` of `src/generator/block-renderer.ts`, on one value: drop
empty strings, recurse into objects and drop them when they clean to
empty; keep numbers and booleans.  (`undefined`/`null` entries are never
constructed by the embedding in the first place.) -/
def cleanVal : JVal → Option JVal
  | .jstr s => if s = "" then none else some (.jstr s)
  | .jnum n => some (.jnum n)
  | .jbool b => some (.jbool b)
  | .jobj kvs =>
      match cleanKvs kvs with
      | [] => none
      | k :: rest => some (.jobj (k :: rest))

/-- `cleanObj` on the ordered members of an object. -/
def cleanKvs : List (String × JVal) → List (String × JVal)
  | [] => []
  | (k, v) :: rest =>
      match cleanVal v with
      | none => cleanKvs rest
      | some v2 => (k, v2) :: cleanKvs rest

end

/-- The serialized-attribute part of a block comment: empty for an empty
cleaned object, otherwise a single space followed by the compact JSON. -/
def blockJson (attrs : List (String × JVal)) : String :=
  match cleanKvs attrs with
  | [] => ""
  | k :: rest => " " ++ stringifyV (.jobj (k :: rest))

/-- `block` from `src/generator/block-renderer.ts`. -/
def block (name : String) (attrs : List (String × JVal)) (inner : String) : String :=
  "<!-- wp:" ++ name ++ blockJson attrs ++ " -->\n" ++ inner ++ "\n<!-- /wp:" ++ name ++ " -->"

/-- `selfClosingBlock` from `src/generator/block-renderer.ts`. -/
def selfClosingBlock (name : String) (attrs : List (String × JVal)) : String :=
  "<!-- wp:" ++ name ++ blockJson attrs ++ " /-->"

/-! ### Substring occurrence counting

Used to state "contains exactly one button block".  `countSub pat s`
counts the start positions in `s` at which the pattern occurs. -/

/-- Boolean prefix test on character lists. -/
def isPre : List Char → List Char → Bool
  | [], _ => true
  | _ :: _, [] => false
  | a :: as, b :: bs => a = b && isPre as bs

/-- Number of start positions of `pat` inside `s` (occurrences may
overlap; the patterns used below cannot overlap themselves). -/
def countSub (pat : List Char) : List Char → Nat
  | [] => 0
  | c :: rest => (if isPre pat (c :: rest) then 1 else 0) + countSub pat rest

/-- Some index, inside both lists, at which the two lists differ. -/
def mismatchIn : List Char → List Char → Bool
  | [], _ => false
  | _ :: _, [] => false
  | a :: as, b :: bs => decide (a ≠ b) || mismatchIn as bs

/-- Every suffix of `s` mismatches `pat` at an index inside `s`: hence no
occurrence of `pat` can start inside `s`, whatever follows `s`. -/
def blocksAll (pat : List Char) : List Char → Bool
  | [] => true
  | c :: rest => mismatchIn pat (c :: rest) && blocksAll pat rest

theorem isPre_false_of_mismatchIn {pat a : List Char} (h : mismatchIn pat a = true)
    (s : List Char) : isPre pat (a ++ s) = false := by
  induction pat generalizing a with
  | nil => simp [mismatchIn] at h
  | cons p ps ih =>
    cases a with
    | nil => simp [mismatchIn] at h
    | cons b bs =>
      simp only [mismatchIn, Bool.or_eq_true, decide_eq_true_eq] at h
      rcases h with h | h
      · simp [isPre, h]
      · simp [isPre, ih h]

theorem countSub_chunk {pat a : List Char} (h : blocksAll pat a = true) (s : List Char) :
    countSub pat (a ++ s) = countSub pat s := by
  induction a with
  | nil => rfl
  | cons c rest ih =>
    simp only [blocksAll, Bool.and_eq_true] at h
    have hpre := isPre_false_of_mismatchIn h.1 s
    simp only [List.cons_append] at hpre
    simp only [List.cons_append, countSub, List.append_eq, hpre, if_false]
    simpa using ih h.2

theorem blocksAll_of_no_lt {ps a : List Char} (h : ∀ c ∈ a, c ≠ '<') :
    blocksAll ('<' :: ps) a = true := by
  induction a with
  | nil => rfl
  | cons c rest ih =>
    have hc : c ≠ '<' := h c (by simp)
    simp only [blocksAll, Bool.and_eq_true]
    refine ⟨?_, ih fun x hx => h x (by simp [hx])⟩
    simp only [mismatchIn, Bool.or_eq_true, decide_eq_true_eq]
    exact Or.inl fun hh => hc hh.symm

theorem countSub_flat {ps a : List Char} (h : ∀ c ∈ a, c ≠ '<') (s : List Char) :
    countSub ('<' :: ps) (a ++ s) = countSub ('<' :: ps) s :=
  countSub_chunk (blocksAll_of_no_lt h) s

theorem isPre_append_self (pat s : List Char) : isPre pat (pat ++ s) = true := by
  induction pat with
  | nil => rfl
  | cons p ps ih => simp [isPre, ih]

theorem countSub_self {p : Char} {pr : List Char} (h : blocksAll (p :: pr) pr = true)
    (s : List Char) : countSub (p :: pr) ((p :: pr) ++ s) = 1 + countSub (p :: pr) s := by
  have hp := isPre_append_self (p :: pr) s
  simp only [List.cons_append] at hp
  simp only [List.cons_append, countSub, List.append_eq, hp, if_true]
  simp [countSub_chunk h s]

/-! ### IR data model (`src/types/ir.ts`)

Enum-typed fields are modelled as runtime strings (their JavaScript
representation); numbers as `Int`. -/

inductive NodeType where
  | heading | paragraph | image | button | list | spacer | group | navigation
deriving Repr, DecidableEq

structure NodeAttributes where
  level : Option Nat := none
  src : Option String := none
  alt : Option String := none
  width : Option Int := none
  height : Option Int := none
  href : Option String := none
  variant : Option String := none
  ordered : Option Bool := none
  items : Option (List String) := none
  links : Option (List (String × String)) := none
  fontSize : Option String := none
  textAlign : Option String := none
  backgroundColor : Option String := none
  textColor : Option String := none
  padding : Option String := none
deriving Repr, DecidableEq

/-- Free-form CSS style map (`Record<string, string>`), as an ordered
association list with first-match lookup. -/
def StyleMap : Type := List (String × String)

inductive IRNode where
  | mk (type : NodeType) (content : Option String) (attributes : NodeAttributes)
      (children : List IRNode) (style : Option (List (String × String)))
      (className : Option String)
deriving Repr

def IRNode.type : IRNode → NodeType
  | .mk t _ _ _ _ _ => t

def IRNode.content : IRNode → Option String
  | .mk _ c _ _ _ _ => c

def IRNode.attributes : IRNode → NodeAttributes
  | .mk _ _ a _ _ _ => a

def IRNode.children : IRNode → List IRNode
  | .mk _ _ _ ch _ _ => ch

def IRNode.style : IRNode → Option (List (String × String))
  | .mk _ _ _ _ s _ => s

def IRNode.className : IRNode → Option String
  | .mk _ _ _ _ _ cn => cn

structure LayoutDescriptor where
  type : String
  columns : Option Int := none
  gap : Option String := none
  contentWidth : Option String := none
  verticalAlign : Option String := none
deriving Repr, DecidableEq

structure IRSection where
  sectionIntent : String
  layout : LayoutDescriptor
  children : List IRNode
  motionIntent : Option String := none
  background : Option (String × String) := none
  style : Option (List (String × String)) := none
  className : Option String := none
deriving Repr

structure TokenColors where
  primary : String
  secondary : String
  background : String
  foreground : String
  accent : Option String := none
  muted : Option String := none
deriving Repr, DecidableEq

structure TokenFonts where
  heading : Option String := none
  body : Option String := none
deriving Repr, DecidableEq

structure DesignTokens where
  colors : TokenColors
  fonts : TokenFonts
  borderRadius : Option String := none
deriving Repr, DecidableEq

structure IRMetadata where
  title : String
  description : Option String := none
  sourceUrl : Option String := none
deriving Repr, DecidableEq

structure IRDocument where
  version : String
  metadata : IRMetadata
  designTokens : DesignTokens
  header : Option IRSection := none
  sections : List IRSection
  footer : Option IRSection := none
  customCSS : Option String := none
deriving Repr

/-! ### WordPress block style objects

The structured style object built by `buildBlockStyle` and consumed both
by `JSON.stringify` (via `toJson`) and by `wpInlineStyle`.  A field is
`some` exactly when the JavaScript object has the corresponding key. -/

structure TypographyStyle where
  fontSize : Option String := none
  lineHeight : Option String := none
  letterSpacing : Option String := none
  textTransform : Option String := none
deriving Repr, DecidableEq

structure ColorStyle where
  text : Option String := none
  background : Option String := none
  gradient : Option String := none
deriving Repr, DecidableEq

structure SideValues where
  top : Option String := none
  right : Option String := none
  bottom : Option String := none
  left : Option String := none
deriving Repr, DecidableEq

/-- `spacing.blockGap` is either a plain string or a `top`/`left` object. -/
inductive GapValue where
  | str (s : String)
  | sides (top left : Option String)
deriving Repr, DecidableEq

structure SpacingStyle where
  padding : Option SideValues := none
  margin : Option SideValues := none
  blockGap : Option GapValue := none
deriving Repr, DecidableEq

structure BorderStyle where
  radius : Option String := none
  width : Option String := none
  style : Option String := none
deriving Repr, DecidableEq

structure BlockStyle where
  typography : Option TypographyStyle := none
  color : Option ColorStyle := none
  spacing : Option SpacingStyle := none
  border : Option BorderStyle := none
deriving Repr, DecidableEq

def BlockStyle.isEmpty (bs : BlockStyle) : Bool :=
  bs.typography.isNone && bs.color.isNone && bs.spacing.isNone && bs.border.isNone

def jsonOptStr (k : String) (o : Option String) : List (String × JVal) :=
  match o with
  | some s => [(k, .jstr s)]
  | none => []

def SideValues.toJson (p : SideValues) : JVal :=
  .jobj (jsonOptStr "top" p.top ++ jsonOptStr "right" p.right
    ++ jsonOptStr "bottom" p.bottom ++ jsonOptStr "left" p.left)

def GapValue.toJson : GapValue → JVal
  | .str s => .jstr s
  | .sides t l => .jobj (jsonOptStr "top" t ++ jsonOptStr "left" l)

/-- Serialize a block style object to JSON members, in a fixed key order.
(JavaScript objects enumerate keys in insertion order; no verified claim
depends on the key order inside the `style` attribute object, so a fixed
order is used here.) -/
def BlockStyle.toJson (bs : BlockStyle) : List (String × JVal) :=
  (match bs.typography with
   | some t => [("typography", JVal.jobj (jsonOptStr "fontSize" t.fontSize
       ++ jsonOptStr "lineHeight" t.lineHeight ++ jsonOptStr "letterSpacing" t.letterSpacing
       ++ jsonOptStr "textTransform" t.textTransform))]
   | none => [])
  ++ (match bs.color with
   | some c => [("color", JVal.jobj (jsonOptStr "text" c.text
       ++ jsonOptStr "background" c.background ++ jsonOptStr "gradient" c.gradient))]
   | none => [])
  ++ (match bs.spacing with
   | some sp => [("spacing", JVal.jobj
       ((match sp.padding with | some p => [("padding", p.toJson)] | none => [])
        ++ (match sp.margin with | some m => [("margin", m.toJson)] | none => [])
        ++ (match sp.blockGap with | some g => [("blockGap", g.toJson)] | none => [])))]
   | none => [])
  ++ (match bs.border with
   | some b => [("border", JVal.jobj (jsonOptStr "radius" b.radius
       ++ jsonOptStr "width" b.width ++ jsonOptStr "style" b.style))]
   | none => [])

/-! ### `wpInlineStyle` (`src/generator/block-renderer.ts`, lines 64-125) -/

/-- One pushed `prop:value` pair, guarded by JS truthiness of the value. -/
def optP (p : String) (v : Option String) : List (String × String) :=
  match tstr v with
  | some s => [(p, s)]
  | none => []

def typoStyles (t : Option TypographyStyle) : List (String × String) :=
  optP "font-size" (t.bind TypographyStyle.fontSize)
  ++ optP "line-height" (t.bind TypographyStyle.lineHeight)
  ++ optP "letter-spacing" (t.bind TypographyStyle.letterSpacing)
  ++ optP "text-transform" (t.bind TypographyStyle.textTransform)

def colorStyles (c : Option ColorStyle) : List (String × String) :=
  optP "color" (c.bind ColorStyle.text)
  ++ optP "background-color" (c.bind ColorStyle.background)
  ++ optP "background" (c.bind ColorStyle.gradient)

def paddingStyles (sp : Option SpacingStyle) : List (String × String) :=
  match sp.bind SpacingStyle.padding with
  | none => []
  | some pad => optP "padding-top" pad.top ++ optP "padding-right" pad.right
      ++ optP "padding-bottom" pad.bottom ++ optP "padding-left" pad.left

def marginStyles (sp : Option SpacingStyle) : List (String × String) :=
  match sp.bind SpacingStyle.margin with
  | none => []
  | some mar => optP "margin-top" mar.top ++ optP "margin-right" mar.right
      ++ optP "margin-bottom" mar.bottom ++ optP "margin-left" mar.left

def gapStyles (sp : Option SpacingStyle) : List (String × String) :=
  match sp.bind SpacingStyle.blockGap with
  | none => []
  | some (.str s) => if s = "" then [] else [("gap", s)]
  | some (.sides t l) =>
      match tstr t, tstr l with
      | some tv, some lv => [("gap", tv ++ " " ++ lv)]
      | some tv, none => [("gap", tv)]
      | none, some lv => [("gap", lv)]
      | none, none => []

def borderStyles (b : Option BorderStyle) : List (String × String) :=
  optP "border-radius" (b.bind BorderStyle.radius)

/-- The ordered `prop:value` pairs pushed by `wpInlineStyle`. -/
def wpStyles (bs : BlockStyle) : List (String × String) :=
  typoStyles bs.typography ++ colorStyles bs.color ++ paddingStyles bs.spacing
  ++ marginStyles bs.spacing ++ gapStyles bs.spacing ++ borderStyles bs.border

def joinPairs : List (String × String) → String
  | [] => ""
  | [(p, v)] => p ++ ":" ++ v
  | (p, v) :: r :: rest => p ++ ":" ++ v ++ ";" ++ joinPairs (r :: rest)

def wpInlineStyleCore (bs : BlockStyle) : String :=
  match wpStyles bs with
  | [] => ""
  | l => " style=\"" ++ joinPairs l ++ "\""

/-- `wpInlineStyle`, taking the possibly-undefined style object. -/
def wpInlineStyle : Option BlockStyle → String
  | none => ""
  | some bs => wpInlineStyleCore bs

/-! ### `buildBlockStyle` and helpers -/

def BlockStyle.setColorText (bs : BlockStyle) (v : String) : BlockStyle :=
  { bs with color := some { bs.color.getD {} with text := some v } }

def BlockStyle.setColorBackground (bs : BlockStyle) (v : String) : BlockStyle :=
  { bs with color := some { bs.color.getD {} with background := some v } }

def BlockStyle.setTypo (bs : BlockStyle) (f : TypographyStyle → TypographyStyle) : BlockStyle :=
  { bs with typography := some (f (bs.typography.getD {})) }

/-- First-match lookup with JS truthiness, modelling `irStyle?.["k"]`. -/
def styleGet (m : Option (List (String × String))) (k : String) : Option String :=
  tstr (m.bind (fun l => l.lookup k))

/-- `buildBlockStyle` from `src/generator/block-renderer.ts`: structured
style object plus implied semantic class tokens. -/
def buildBlockStyle (attrs : NodeAttributes) (irStyle : Option (List (String × String))) :
    BlockStyle × List String :=
  let r1 : BlockStyle × List String :=
    match tstr attrs.textColor with
    | some v => (BlockStyle.setColorText {} v, ["has-text-color"])
    | none => ({}, [])
  let r2 :=
    match tstr attrs.backgroundColor with
    | some v => (r1.1.setColorBackground v, r1.2 ++ ["has-background"])
    | none => r1
  let r3 :=
    match tstr attrs.padding with
    | some p =>
        match PADDING_MAP.lookup p with
        | some val =>
            let pad : SideValues :=
              { top := some val, right := some val, bottom := some val, left := some val }
            ({ r2.1 with spacing := some { padding := some pad } }, r2.2)
        | none => r2
    | none => r2
  let r4 :=
    match styleGet irStyle "font-size" with
    | some v => (r3.1.setTypo (fun t => { t with fontSize := some v }), r3.2)
    | none => r3
  let r5 :=
    match styleGet irStyle "line-height" with
    | some v => (r4.1.setTypo (fun t => { t with lineHeight := some v }), r4.2)
    | none => r4
  let r6 :=
    match styleGet irStyle "letter-spacing" with
    | some v => (r5.1.setTypo (fun t => { t with letterSpacing := some v }), r5.2)
    | none => r5
  let r7 :=
    match styleGet irStyle "text-transform" with
    | some v => (r6.1.setTypo (fun t => { t with textTransform := some v }), r6.2)
    | none => r6
  let r8 :=
    match styleGet irStyle "background-color", tstr attrs.backgroundColor with
    | some v, none => (r7.1.setColorBackground v, r7.2 ++ ["has-background"])
    | _, _ => r7
  let r9 :=
    match styleGet irStyle "color", tstr attrs.textColor with
    | some v, none => (r8.1.setColorText v, r8.2 ++ ["has-text-color"])
    | _, _ => r8
  r9

def layoutClassFromType (t : Option String) : Option String :=
  match t with
  | some "constrained" => some "is-layout-constrained"
  | some "grid" => some "is-layout-grid"
  | some "flex" => some "is-layout-flex"
  | some "default" => some "is-layout-flow"
  | _ => none

/-- Split a character list at every occurrence of `sep` (the JS
`String.prototype.split` with a one-character separator: consecutive
separators yield empty segments). -/
def splitChar (sep : Char) : List Char → List (List Char)
  | [] => [[]]
  | c :: rest =>
    match splitChar sep rest with
    | [] => [[]]
    | h :: t => if c = sep then [] :: h :: t else (c :: h) :: t

/-- `applyClassName`: add the recovered class names to the block attrs
and the HTML class list (skipped for a falsy class name);
`className.split(" ").filter(Boolean)`. -/
def applyClassName (className : Option String) (blockAttrs : List (String × JVal))
    (cssClasses : List String) : List (String × JVal) × List String :=
  match className with
  | none => (blockAttrs, cssClasses)
  | some c =>
      if c = "" then (blockAttrs, cssClasses)
      else (blockAttrs ++ [("className", .jstr c)],
        cssClasses ++ ((splitChar ' ' c.data).map String.mk).filter (fun x => !x.isEmpty))

/-- `Array.prototype.join(" ")`. -/
def joinSpace : List String → String
  | [] => ""
  | [s] => s
  | s :: r :: rest => s ++ " " ++ joinSpace (r :: rest)

/-- JS truthiness for an optional number (`0` is falsy). -/
def tnum (o : Option Int) : Option Int :=
  match o with
  | some 0 => none
  | some n => some n
  | none => none

/-! ### Node renderers -/

def renderHeading (tokens : DesignTokens) (content : Option String) (attributes : NodeAttributes)
    (irStyle : Option (List (String × String))) (className : Option String) : String :=
  let level : Nat :=
    match attributes.level with
    | some l => if l = 0 then 2 else l
    | none => 2
  let tag := "h" ++ toString level
  let blockAttrs : List (String × JVal) := [("level", .jnum (level : Int))]
  let cssClasses := ["wp-block-heading"]
  let st1 :=
    match tstr attributes.textAlign with
    | some ta => (blockAttrs ++ [("textAlign", JVal.jstr ta)], cssClasses ++ ["has-text-align-" ++ ta])
    | none => (blockAttrs, cssClasses)
  let st2 :=
    match mapFontSize attributes.fontSize with
    | some fs => (st1.1 ++ [("fontSize", JVal.jstr fs)], st1.2 ++ ["has-" ++ fs ++ "-font-size"])
    | none => st1
  let st3 :=
    match tstr tokens.fonts.heading with
    | some _ => (st2.1 ++ [("fontFamily", JVal.jstr "heading")], st2.2 ++ ["has-heading-font-family"])
    | none => st2
  let bsr := buildBlockStyle attributes irStyle
  let styleOpt : Option BlockStyle := if bsr.1.isEmpty then none else some bsr.1
  let st4 := (st3.1 ++ (match styleOpt with
      | some bs => [("style", JVal.jobj bs.toJson)]
      | none => []), st3.2 ++ bsr.2)
  let st5 := applyClassName className st4.1 st4.2
  let classAttr := if st5.2.isEmpty then "" else " class=\"" ++ joinSpace st5.2 ++ "\""
  let styleAttr := wpInlineStyle styleOpt
  block "heading" st5.1
    ("<" ++ tag ++ classAttr ++ styleAttr ++ ">" ++ escapeHtml (content.getD "") ++ "</" ++ tag ++ ">")

def renderParagraph (tokens : DesignTokens) (content : Option String) (attributes : NodeAttributes)
    (irStyle : Option (List (String × String))) (className : Option String) : String :=
  let blockAttrs : List (String × JVal) := []
  let cssClasses : List String := []
  let st1 :=
    match tstr attributes.textAlign with
    | some ta => (blockAttrs ++ [("align", JVal.jstr ta)], cssClasses ++ ["has-text-align-" ++ ta])
    | none => (blockAttrs, cssClasses)
  let st2 :=
    match mapFontSize attributes.fontSize with
    | some fs => (st1.1 ++ [("fontSize", JVal.jstr fs)], st1.2 ++ ["has-" ++ fs ++ "-font-size"])
    | none => st1
  let st3 :=
    match tstr tokens.fonts.body with
    | some _ => (st2.1 ++ [("fontFamily", JVal.jstr "body")], st2.2 ++ ["has-body-font-family"])
    | none => st2
  let bsr := buildBlockStyle attributes irStyle
  let styleOpt : Option BlockStyle := if bsr.1.isEmpty then none else some bsr.1
  let st4 := (st3.1 ++ (match styleOpt with
      | some bs => [("style", JVal.jobj bs.toJson)]
      | none => []), st3.2 ++ bsr.2)
  let st5 := applyClassName className st4.1 st4.2
  let classAttr := if st5.2.isEmpty then "" else " class=\"" ++ joinSpace st5.2 ++ "\""
  let styleAttr := wpInlineStyle styleOpt
  block "paragraph" st5.1
    ("<p" ++ classAttr ++ styleAttr ++ ">" ++ escapeHtml (content.getD "") ++ "</p>")

def renderImage (attributes : NodeAttributes) (className : Option String) : String :=
  let src := jsOrS attributes.src ""
  let alt := jsOrS attributes.alt ""
  let blockAttrs : List (String × JVal) :=
    [("sizeSlug", .jstr "full"), ("linkDestination", .jstr "none")]
  let cssClasses := ["wp-block-image", "size-full"]
  let blockAttrs := blockAttrs
    ++ (match tnum attributes.width with | some w => [("width", JVal.jnum w)] | none => [])
    ++ (match tnum attributes.height with | some h => [("height", JVal.jnum h)] | none => [])
  let st := applyClassName className blockAttrs cssClasses
  let imgAttrs := ["src=\"" ++ escapeAttr src ++ "\"", "alt=\"" ++ escapeAttr alt ++ "\""]
    ++ (match tnum attributes.width with | some w => ["width=\"" ++ toString w ++ "\""] | none => [])
    ++ (match tnum attributes.height with | some h => ["height=\"" ++ toString h ++ "\""] | none => [])
  block "image" st.1
    ("<figure class=\"" ++ joinSpace st.2 ++ "\"><img " ++ String.intercalate " " imgAttrs
      ++ "/></figure>")

/-- The border-only style object assigned for the outline button variant. -/
def outlineBorderStyle : BlockStyle :=
  { border := some { width := some "2px", style := some "solid" } }

/-- The block attributes, optional style object and class tokens chosen
by the button variant branch (starting from the two base classes). -/
def btnVariantData (variant : String) :
    List (String × JVal) × Option BlockStyle × List String :=
  let btnClasses := ["wp-block-button__link", "wp-element-button"]
  if variant = "primary" then
    ([("backgroundColor", .jstr "primary"), ("textColor", .jstr "background")], none,
     btnClasses ++ ["has-primary-background-color", "has-background-color-color",
       "has-text-color", "has-background"])
  else if variant = "secondary" then
    ([("backgroundColor", .jstr "secondary"), ("textColor", .jstr "background")], none,
     btnClasses ++ ["has-secondary-background-color", "has-background-color-color",
       "has-text-color", "has-background"])
  else if variant = "outline" then
    ([("textColor", .jstr "primary"), ("style", .jobj outlineBorderStyle.toJson)],
     some outlineBorderStyle,
     btnClasses ++ ["has-primary-color", "has-text-color", "is-style-outline"])
  else ([], none, btnClasses)

def renderButton (content : Option String) (attributes : NodeAttributes)
    (className : Option String) : String :=
  let href := jsOrS attributes.href "#"
  let variant := jsOrS attributes.variant "primary"
  let st1 := btnVariantData variant
  let st2 := applyClassName className st1.1 st1.2.2
  let styleAttr := wpInlineStyle st1.2.1
  let innerButton := block "button" st2.1
    ("<div class=\"wp-block-button\"><a class=\"" ++ joinSpace st2.2 ++ "\" href=\""
      ++ escapeAttr href ++ "\"" ++ styleAttr ++ ">" ++ escapeHtml (content.getD "")
      ++ "</a></div>")
  let buttonsClasses := ["wp-block-buttons", "is-layout-flex"]
  block "buttons" []
    ("<div class=\"" ++ joinSpace buttonsClasses ++ "\">\n" ++ innerButton ++ "\n</div>")

def renderList (attributes : NodeAttributes) (className : Option String) : String :=
  let ordered := attributes.ordered.getD false
  let items := attributes.items.getD []
  let tag := if ordered then "ol" else "ul"
  let blockAttrs : List (String × JVal) := if ordered then [("ordered", .jbool true)] else []
  let cssClasses := ["wp-block-list"]
  let st := applyClassName className blockAttrs cssClasses
  let listItems := String.intercalate "\n" (items.map (fun item => "<li>" ++ escapeHtml item ++ "</li>"))
  block "list" st.1
    ("<" ++ tag ++ " class=\"" ++ joinSpace st.2 ++ "\">\n" ++ listItems ++ "\n</" ++ tag ++ ">")

/-- The spacer height computation `PADDING_MAP[node.attributes.padding || "md"] || "40px"`. -/
def spacerHeight (padding : Option String) : String :=
  jsOrS (PADDING_MAP.lookup (jsOrS padding "md")) "40px"

def renderSpacer (attributes : NodeAttributes) : String :=
  let height := spacerHeight attributes.padding
  block "spacer" [("height", .jstr height)]
    ("<div style=\"height:" ++ height ++ "\" aria-hidden=\"true\" class=\"wp-block-spacer\"></div>")

def renderNavigation (attributes : NodeAttributes) (className : Option String) : String :=
  let links := attributes.links.getD []
  let blockAttrs : List (String × JVal) :=
    [("layout", .jobj [("type", .jstr "flex"), ("flexWrap", .jstr "nowrap")])]
  let cssClasses := ["wp-block-group"]
  let cssClasses := cssClasses
    ++ (match layoutClassFromType (some "flex") with | some lc => [lc] | none => [])
  let st := applyClassName className blockAttrs cssClasses
  let linkBlocks := String.intercalate "\n\n" (links.map (fun l =>
    block "paragraph" []
      ("<p><a href=\"" ++ escapeAttr l.2 ++ "\">" ++ escapeHtml l.1 ++ "</a></p>")))
  block "group" st.1
    ("<div class=\"" ++ joinSpace st.2 ++ "\">\n" ++ linkBlocks ++ "\n</div>")

mutual

/-- `renderNode`: closed dispatch over the node kind.  The `group` branch
is inlined because it recurses into the children. -/
def renderNode (tokens : DesignTokens) : IRNode → String
  | .mk t content attributes children irStyle className =>
    match t with
    | .heading => renderHeading tokens content attributes irStyle className
    | .paragraph => renderParagraph tokens content attributes irStyle className
    | .image => renderImage attributes className
    | .button => renderButton content attributes className
    | .list => renderList attributes className
    | .spacer => renderSpacer attributes
    | .navigation => renderNavigation attributes className
    | .group =>
      let display := styleGet irStyle "display"
      let layoutAttr : List (String × JVal) :=
        if display = some "grid" then
          [("type", .jstr "grid"), ("minimumColumnWidth", .jstr "280px")]
        else if display = some "flex" then
          [("type", .jstr "flex"), ("flexWrap", .jstr "nowrap")]
        else [("type", .jstr "constrained")]
      let layoutType : String :=
        if display = some "grid" then "grid"
        else if display = some "flex" then "flex" else "constrained"
      let blockAttrs : List (String × JVal) := [("layout", .jobj layoutAttr)]
      let cssClasses := ["wp-block-group"]
      let cssClasses := cssClasses
        ++ (match layoutClassFromType (some layoutType) with | some lc => [lc] | none => [])
      let bsr := buildBlockStyle attributes irStyle
      let bs :=
        match styleGet irStyle "gap" with
        | some g =>
            { bsr.1 with spacing := some { bsr.1.spacing.getD {} with blockGap := some (.str g) } }
        | none => bsr.1
      let styleOpt : Option BlockStyle := if bs.isEmpty then none else some bs
      let blockAttrs := blockAttrs ++ (match styleOpt with
        | some b => [("style", JVal.jobj b.toJson)]
        | none => [])
      let cssClasses := cssClasses ++ bsr.2
      let st := applyClassName className blockAttrs cssClasses
      let classAttr := " class=\"" ++ joinSpace st.2 ++ "\""
      let styleAttr := wpInlineStyle styleOpt
      let inner := String.intercalate "\n\n" (renderNodes tokens children)
      block "group" st.1 ("<div" ++ classAttr ++ styleAttr ++ ">\n" ++ inner ++ "\n</div>")

/-- The rendered fragments of a node list, in order. -/
def renderNodes (tokens : DesignTokens) : List IRNode → List String
  | [] => []
  | n :: rest => renderNode tokens n :: renderNodes tokens rest

end

/-! ### Section layout composition (`renderChildrenForLayout`) -/

/-- The column count `layout.columns || 2` (JS `||`: `0` is falsy). -/
def numColsOf (layout : LayoutDescriptor) : Int :=
  match layout.columns with
  | some c => if c = 0 then 2 else c
  | none => 2

/-- `layout.gap ? GAP_MAP[layout.gap] : undefined` for a columns layout. -/
def columnsGapOf (layout : LayoutDescriptor) : Option String :=
  match tstr layout.gap with
  | some g => GAP_MAP.lookup g
  | none => none

/-- The `wp:columns` block attributes (the gap mapped to `blockGap`). -/
def columnsAttrsOf (layout : LayoutDescriptor) : List (String × JVal) :=
  match columnsGapOf layout with
  | some g => [("style", .jobj [("spacing", .jobj [("blockGap",
      .jobj [("top", .jstr g), ("left", .jstr g)])])])]
  | none => []

/-- The same columns style object, in structured form for `wpInlineStyle`. -/
def columnsStyleOf (layout : LayoutDescriptor) : Option BlockStyle :=
  match columnsGapOf layout with
  | some g => some { spacing := some { blockGap := some (.sides (some g) (some g)) } }
  | none => none

/-- One `wp:column` block for one chunk of children. -/
def renderColumn (tokens : DesignTokens) (colChildren : List IRNode) : String :=
  block "column" []
    ("<div class=\"wp-block-column is-layout-flow\">\n"
      ++ String.intercalate "\n\n" (colChildren.map (renderNode tokens)) ++ "\n</div>")

def renderChildrenForLayout (tokens : DesignTokens) (sec : IRSection) : String :=
  if sec.layout.type = "columns" then
    let numCols := numColsOf sec.layout
    let columns := chunkArray sec.children numCols
    let columnBlocks := String.intercalate "\n\n" (columns.map (renderColumn tokens))
    let colStyleAttr := wpInlineStyle (columnsStyleOf sec.layout)
    let colsCssClasses := ["wp-block-columns", "is-layout-flex"]
    block "columns" (columnsAttrsOf sec.layout)
      ("<div class=\"" ++ joinSpace colsCssClasses ++ "\"" ++ colStyleAttr ++ ">\n"
        ++ columnBlocks ++ "\n</div>")
  else if sec.layout.type = "grid" then
    let gridAttrs : List (String × JVal) :=
      [("layout", .jobj [("type", .jstr "grid"), ("minimumColumnWidth", .jstr "300px")])]
    let gridClasses := ["wp-block-group", "is-layout-grid"]
    block "group" gridAttrs
      ("<div class=\"" ++ joinSpace gridClasses ++ "\">\n"
        ++ String.intercalate "\n\n" (sec.children.map (renderNode tokens)) ++ "\n</div>")
  else String.intercalate "\n\n" (sec.children.map (renderNode tokens))

/-! ### Style reconciliation (`src/services/html-preprocessor.ts`)

The construction of the leaf index and container candidate list walks the
original markup through the external `cheerio` HTML parser; those two
build steps are taken as parameters (arbitrary`List LeafElement` /
`List ContainerElement` values), and everything from `extractCssClasses`
and the guard clauses through the matching walk is embedded faithfully. -/

/-- ASCII whitespace as matched by the `\s` regex class (the Unicode
space characters also in `\s` do not occur in the verified statements). -/
def isWsChar (c : Char) : Bool :=
  c = ' ' || c = '\t' || c = '\n' || c = '\r' || c = Char.ofNat 11 || c = Char.ofNat 12

/-- Collapse every whitespace run to a single space (`replace(/\s+/g, " ")`). -/
def collapseWs : List Char → List Char
  | [] => []
  | c :: rest =>
    let r := collapseWs rest
    if isWsChar c then
      match r with
      | ' ' :: _ => r
      | _ => ' ' :: r
    else c :: r

/-- `normalizeText`: collapse whitespace runs, then trim. -/
def normalizeText (s : String) : String :=
  let l := collapseWs s.data
  let l2 := match l with
    | ' ' :: r => r
    | _ => l
  let l3 := if l2.getLast? = some ' ' then l2.dropLast else l2
  String.mk l3

def isIdentStart (c : Char) : Bool :=
  ('A' ≤ c && c ≤ 'Z') || ('a' ≤ c && c ≤ 'z') || c = '_'

def isIdentChar (c : Char) : Bool :=
  isIdentStart c || ('0' ≤ c && c ≤ '9') || c = '-'

/-- State of the left-to-right scan for `/\.([A-Za-z_][\w-]*)/g`: between
matches, right after a `.`, or inside a captured name (held reversed). -/
inductive ScanSt where
  | normal
  | afterDot
  | inName (rev : List Char)

/-- The regex scan `/\.([A-Za-z_][\w-]*)/g` as a character-at-a-time state
machine (the `g` scan resumes immediately after each maximal match). -/
def scanCssAux : ScanSt → List Char → List String
  | st, [] =>
    (match st with
     | .inName nm => [String.mk nm.reverse]
     | _ => [])
  | .normal, c :: rest =>
    if c = '.' then scanCssAux .afterDot rest else scanCssAux .normal rest
  | .afterDot, c :: rest =>
    if isIdentStart c then scanCssAux (.inName [c]) rest
    else if c = '.' then scanCssAux .afterDot rest
    else scanCssAux .normal rest
  | .inName nm, c :: rest =>
    if isIdentChar c then scanCssAux (.inName (c :: nm)) rest
    else if c = '.' then String.mk nm.reverse :: scanCssAux .afterDot rest
    else String.mk nm.reverse :: scanCssAux .normal rest

def scanCssClasses (l : List Char) : List String :=
  scanCssAux .normal l

/-- Order-preserving, first-occurrence deduplication (the iteration order
of a JavaScript `Set`), with the already-seen elements accumulated. -/
def dedupFirstAux {α : Type} [DecidableEq α] (seen : List α) : List α → List α
  | [] => []
  | x :: rest =>
    if seen.contains x then dedupFirstAux seen rest
    else x :: dedupFirstAux (seen ++ [x]) rest

def dedupFirst {α : Type} [DecidableEq α] (l : List α) : List α :=
  dedupFirstAux [] l

/-- `extractCssClasses`: the set of class-selector names defined by the
stylesheet text, as a first-occurrence-ordered list. -/
def extractCssClasses (css : String) : List String :=
  dedupFirst (scanCssClasses css.data)

/-- `getClassList`: the class names on an element that the stylesheet
actually defines.  (`split(/\s+/)` entries are whitespace-free, so the
per-entry `trim()` is the identity and is not repeated here.) -/
def getClassList (raw : Option String) (cssClasses : List String) : List String :=
  match raw with
  | none => []
  | some r => (r.split isWsChar).filter (fun c => !c.isEmpty && cssClasses.contains c)

/-- `mergeClassName`: set-union merge of recovered class names into an
existing space-joined class string. -/
def mergeClassName (existing : Option String) (additions : List String) : Option String :=
  if additions.isEmpty then existing
  else
    let fromExisting :=
      match existing with
      | some e => (e.split isWsChar).filter (fun c => !c.isEmpty)
      | none => []
    let merged := dedupFirst (fromExisting ++ additions)
    if merged.isEmpty then none else some (joinSpace merged)

/-- `buildLeafKey`: the normalized fingerprint key of a leaf element. -/
def buildLeafKey (tag : String) (text : String) (extra : Option String) : Option String :=
  let normText := normalizeText text
  if tag.startsWith "h" then
    if normText = "" then none else some (tag ++ "|" ++ normText)
  else if tag = "p" then
    if normText = "" then none else some ("p|" ++ normText)
  else if tag = "img" then
    match tstr extra with
    | none => none
    | some e => some ("img|" ++ e)
  else if tag = "button" || tag = "a" then
    if normText = "" then none
    else some ("btn|" ++ normText ++ "|" ++ jsOrS extra "")
  else if tag = "ul" || tag = "ol" then
    match tstr extra with
    | none => none
    | some e => some ("list|" ++ tag ++ "|" ++ e)
  else none

/-- JavaScript `level || 2` for the optional heading level. -/
def jsLevel (o : Option Nat) : Nat :=
  match o with
  | some 0 | none => 2
  | some n => n

/-- The fingerprint key recomputed from an IR node's own content and
attributes (shared by `collectIrLeafKeys` and `applyLeafClasses`, which
perform the identical computation in the source). -/
def nodeLeafKey (t : NodeType) (content : Option String) (attrs : NodeAttributes) :
    Option String :=
  match t with
  | .heading => buildLeafKey ("h" ++ toString (jsLevel attrs.level)) (content.getD "") none
  | .paragraph => buildLeafKey "p" (content.getD "") none
  | .image => buildLeafKey "img" "" (some (jsOrS attrs.src ""))
  | .button => buildLeafKey "button" (content.getD "") (some (jsOrS attrs.href ""))
  | .list => buildLeafKey (if attrs.ordered.getD false then "ol" else "ul") ""
      (some (String.intercalate "|" (attrs.items.getD [])))
  | _ => none

mutual

/-- The raw (pre-dedup) fingerprint keys of a node and its descendants,
in document order. -/
def collectRawKeys : IRNode → List String
  | .mk t content attrs children _ _ =>
    (nodeLeafKey t content attrs).toList ++ collectRawKeysList children

/-- The raw fingerprint keys of a node list, in document order. -/
def collectRawKeysList : List IRNode → List String
  | [] => []
  | n :: rest => collectRawKeys n ++ collectRawKeysList rest

end

/-- `collectIrLeafKeys` applied to a child list (both a section and a
group node collect over their children). -/
def collectIrLeafKeysNodes (l : List IRNode) : List String :=
  dedupFirst (collectRawKeysList l)

/-- A leaf element of the original markup, as indexed (`LeafElement`).
Only the five leaf content kinds occur as `ltype`. -/
structure LeafElement where
  id : Nat
  ltype : NodeType
  key : String
  classes : List String
deriving Repr, DecidableEq

/-- A container candidate of the original markup (`ContainerElement`);
`leafKeys` is already deduplicated at build time in the source, but no
proof below assumes that. -/
structure ContainerElement where
  id : Nat
  classes : List String
  leafKeys : List String
deriving Repr, DecidableEq

/-- The two per-call consumed-identifier sets. -/
structure RecState where
  usedLeafIds : List Nat
  usedContainerIds : List Nat
deriving Repr, DecidableEq

/-- `findLeafMatch`: first unused leaf with the exact key, else first
unused leaf of the same content kind.  The filtered lists enumerate the
key/type buckets in their construction order. -/
def findLeafMatch (leaves : List LeafElement) (st : RecState) (key : String)
    (ltype : NodeType) : Option LeafElement :=
  match (leaves.filter (fun l => l.key == key)).find?
      (fun l => !st.usedLeafIds.contains l.id) with
  | some l => some l
  | none => (leaves.filter (fun l => decide (l.ltype = ltype))).find?
      (fun l => !st.usedLeafIds.contains l.id)

/-- Overlap between a container's (deduplicated) leaf-key set and the
target key set. -/
def overlapOf (tgt : List String) (c : ContainerElement) : Nat :=
  ((dedupFirst c.leafKeys).filter (fun k => tgt.contains k)).length

/-- The minimum-overlap threshold: 1 for at most 3 target keys, else
`ceil(0.3 * k)` (exact for every feasible `k`; see the module comment on
number modelling). -/
def minOverlapOf (k : Nat) : Nat :=
  if k ≤ 3 then 1 else (3 * k + 9) / 10

/-- `overlap / leafKeys.length`, as an exact rational (IEEE doubles
represent and compare these ratios exactly for all feasible sizes). -/
def ratioOf (overlap : Nat) (size : Nat) : ℚ :=
  (overlap : ℚ) / (size : ℚ)

/-- One candidate step of the `findContainerMatch` loop: skip used
candidates and those under the threshold, adopt a first qualifying
candidate, and replace the running best on a strictly better
(overlap, ratio, smaller-size) comparison. -/
def fcmStep (st : RecState) (tgt : List String) (minOverlap : Nat)
    (best : Option (ContainerElement × Nat × ℚ × Nat)) (c : ContainerElement) :
    Option (ContainerElement × Nat × ℚ × Nat) :=
  if st.usedContainerIds.contains c.id then best
  else
    let o := overlapOf tgt c
    if o < minOverlap then best
    else
      match best with
      | none => some (c, o, ratioOf o c.leafKeys.length, c.leafKeys.length)
      | some (b, bo, br, bsz) =>
        if o > bo ∨ (o = bo ∧ ratioOf o c.leafKeys.length > br)
            ∨ (o = bo ∧ ratioOf o c.leafKeys.length = br ∧ c.leafKeys.length < bsz) then
          some (c, o, ratioOf o c.leafKeys.length, c.leafKeys.length)
        else some (b, bo, br, bsz)

/-- `findContainerMatch`: best unused candidate by overlap, then ratio,
then smaller size; `none` when no candidate reaches the threshold. -/
def findContainerMatch (containers : List ContainerElement) (st : RecState)
    (leafKeys : List String) : Option ContainerElement :=
  if leafKeys.isEmpty then none
  else
    (containers.foldl (fcmStep st leafKeys (minOverlapOf leafKeys.length))
      (none : Option (ContainerElement × Nat × ℚ × Nat))).map (fun x => x.1)

/-- Merge-event log: the leaf ids and container ids consumed, in order.
This is proof instrumentation only: each log entry is appended exactly
where the source adds theid to the corresponding used set, and the
un-logged components are the source behaviour. -/
def Log : Type := List Nat × List Nat

def logAppend (a b : Log) : Log := (a.1 ++ b.1, a.2 ++ b.2)

def emptyLog : Log := ([], [])

/-- `applyLeafClasses`, acting on a node's class name: merge the matched
unused leaf's classes and consume the leaf (only when it has classes). -/
def applyLeafStep (leaves : List LeafElement) (st : RecState) (t : NodeType)
    (content : Option String) (attrs : NodeAttributes) (className : Option String) :
    Option String × RecState × Log :=
  match nodeLeafKey t content attrs with
  | none => (className, st, emptyLog)
  | some key =>
    match findLeafMatch leaves st key t with
    | some m =>
        if m.classes.isEmpty then (className, st, emptyLog)
        else (mergeClassName className m.classes,
          { st with usedLeafIds := st.usedLeafIds ++ [m.id] }, ([m.id], []))
    | none => (className, st, emptyLog)

/-- `applyContainerClasses`, acting on a target's class name. -/
def applyContainerStep (containers : List ContainerElement) (st : RecState)
    (keys : List String) (className : Option String) :
    Option String × RecState × Log :=
  if keys.isEmpty then (className, st, emptyLog)
  else
    match findContainerMatch containers st keys with
    | some m =>
        if m.classes.isEmpty then (className, st, emptyLog)
        else (mergeClassName className m.classes,
          { st with usedContainerIds := st.usedContainerIds ++ [m.id] }, ([], [m.id]))
    | none => (className, st, emptyLog)

mutual

/-- The per-node reconciliation walk: leaf match, then (for groups) a
container match, then the children in order. -/
def walkNodeR (leaves : List LeafElement) (containers : List ContainerElement)
    (st : RecState) : IRNode → IRNode × RecState × Log
  | .mk t content attrs children irStyle className =>
    let s1 := applyLeafStep leaves st t content attrs className
    let s2 := if t = .group then
        applyContainerStep containers s1.2.1 (collectIrLeafKeysNodes children) s1.1
      else (s1.1, s1.2.1, emptyLog)
    let s3 := walkListR leaves containers s2.2.1 children
    (.mk t content attrs s3.1 irStyle s2.1, s3.2.1,
      logAppend s1.2.2 (logAppend s2.2.2 s3.2.2))

/-- The reconciliation walk over a child list, threading the state. -/
def walkListR (leaves : List LeafElement) (containers : List ContainerElement)
    (st : RecState) : List IRNode → List IRNode × RecState × Log
  | [] => ([], st, emptyLog)
  | n :: rest =>
    let r1 := walkNodeR leaves containers st n
    let r2 := walkListR leaves containers r1.2.1 rest
    (r1.1 :: r2.1, r2.2.1, logAppend r1.2.2 r2.2.2)

end

/-- The per-section walk: a container match for the section itself, then
its children. -/
def walkSectionR (leaves : List LeafElement) (containers : List ContainerElement)
    (st : RecState) (sec : IRSection) : IRSection × RecState × Log :=
  let s1 := applyContainerStep containers st (collectIrLeafKeysNodes sec.children) sec.className
  let s2 := walkListR leaves containers s1.2.1 sec.children
  ({ sec with className := s1.1, children := s2.1 }, s2.2.1, logAppend s1.2.2 s2.2.2)

def walkSectionsR (leaves : List LeafElement) (containers : List ContainerElement)
    (st : RecState) : List IRSection → List IRSection × RecState × Log
  | [] => ([], st, emptyLog)
  | s :: rest =>
    let r1 := walkSectionR leaves containers st s
    let r2 := walkSectionsR leaves containers r1.2.1 rest
    (r1.1 :: r2.1, r2.2.1, logAppend r1.2.2 r2.2.2)

def walkOptSectionR (leaves : List LeafElement) (containers : List ContainerElement)
    (st : RecState) : Option IRSection → Option IRSection × RecState × Log
  | none => (none, st, emptyLog)
  | some s =>
    let r := walkSectionR leaves containers st s
    (some r.1, r.2.1, r.2.2)

/-- The matching walk of `postprocessClassNames` (header, then body
sections in order, then footer), starting from fresh used sets. -/
def postprocessCoreR (leaves : List LeafElement) (containers : List ContainerElement)
    (ir : IRDocument) : IRDocument × Log :=
  let st0 : RecState := ⟨[], []⟩
  let r1 := walkOptSectionR leaves containers st0 ir.header
  let r2 := walkSectionsR leaves containers r1.2.1 ir.sections
  let r3 := walkOptSectionR leaves containers r2.2.1 ir.footer
  ({ ir with header := r1.1, sections := r2.1, footer := r3.1 },
    logAppend r1.2.2 (logAppend r2.2.2 r3.2.2))

/-- `postprocessClassNames`.  The two extractor parameters stand for the
cheerio-based leaf-index and container-candidate construction over the
raw markup (an external HTML parser); both receive the raw markup and
the extracted class-name set, exactly the data the source versions
close over. -/
def postprocessClassNames
    (extractLeaves : String → List String → List LeafElement)
    (extractContainers : String → List String → List ContainerElement)
    (ir : IRDocument) (rawHtml : String) (extractedCSS : String) : IRDocument :=
  if rawHtml = "" ∨ extractedCSS = "" then ir
  else
    let cssClasses := extractCssClasses extractedCSS
    if cssClasses.isEmpty then ir
    else
      (postprocessCoreR (extractLeaves rawHtml cssClasses)
        (extractContainers rawHtml cssClasses) ir).1

/-! ## Theorems -/

/-! ### Character-substitution lemmas (escaping) -/

theorem substC_cons (t : Char) (r : List Char) (c : Char) (s : List Char) :
    substC t r (c :: s) = (if c = t then r else [c]) ++ substC t r s := by
  simp [substC]

theorem substC_self_not_mem {t : Char} {r : List Char} (h : t ∉ r) (s : List Char) :
    t ∉ substC t r s := by
  induction s with
  | nil => simp [substC]
  | cons c rest ih =>
    rw [substC_cons]
    simp only [List.mem_append]
    rintro (hm | hm)
    · by_cases hc : c = t
      · rw [if_pos hc] at hm
        exact h hm
      · rw [if_neg hc] at hm
        simp only [List.mem_singleton] at hm
        exact hc hm.symm
    · exact ih hm

theorem substC_not_mem {c t : Char} {r : List Char} (hr : c ∉ r) {s : List Char}
    (hs : c ∉ s) : c ∉ substC t r s := by
  induction s with
  | nil => simp [substC]
  | cons d rest ih =>
    rw [substC_cons]
    simp only [List.mem_append]
    simp only [List.mem_cons, not_or] at hs
    rintro (hm | hm)
    · by_cases hd : d = t
      · rw [if_pos hd] at hm
        exact hr hm
      · rw [if_neg hd] at hm
        simp only [List.mem_singleton] at hm
        exact hs.1 hm
    · exact ih hs.2 hm

/-- Helper: `escapeHtml` output never contains a literal `<`. -/
theorem escapeHtml_no_lt (s : String) : '<' ∉ (escapeHtml s).data := by
  show '<' ∉ substC '>' "&gt;".data (substC '<' "&lt;".data (substC '&' "&amp;".data s.data))
  exact substC_not_mem (by decide) (substC_self_not_mem (by decide) _)

/-- Helper: `escapeAttr` output never contains a literal `<`. -/
theorem escapeAttr_no_lt (s : String) : '<' ∉ (escapeAttr s).data := by
  show '<' ∉ substC '>' "&gt;".data (substC '<' "&lt;".data
    (substC '"' "&quot;".data (substC '&' "&amp;".data s.data)))
  exact substC_not_mem (by decide) (substC_self_not_mem (by decide) _)

/-- Claim C10: for every input string, `escapeAttr` output contains no
double-quote and no `<` character (`&` is rewritten first, then `"`, `<`,
`>`), so a value interpolated through `escapeAttr` into a double-quoted
attribute can neither terminate the quoted attribute nor open a tag. -/
theorem escapeAttr_no_quote_no_lt (s : String) :
    '"' ∉ (escapeAttr s).data ∧ '<' ∉ (escapeAttr s).data := by
  refine ⟨?_, escapeAttr_no_lt s⟩
  show '"' ∉ substC '>' "&gt;".data (substC '<' "&lt;".data
    (substC '"' "&quot;".data (substC '&' "&amp;".data s.data)))
  exact substC_not_mem (by decide) (substC_not_mem (by decide)
    (substC_self_not_mem (by decide) _))

/-! ### Scenario A: the concrete heading render (C7) -/

/-- Design tokens with no font families defined. -/
def scenarioTokens : DesignTokens :=
  ⟨⟨"#000000", "#444444", "#ffffff", "#111111", none, none⟩, ⟨none, none⟩, none⟩

/-- Claim C7: an IR with a single heading node (level 1, content "Hello",
no style) renders as exactly the three-line block-grammar string with the
compact attribute JSON `\x7b"level":1\x7d` preceded by a single space. -/
theorem renderNode_scenarioA :
    renderNode scenarioTokens (.mk .heading (some "Hello") { level := some 1 } [] none none)
      = "<!-- wp:heading \x7b\"level\":1\x7d -->\n<h1 class=\"wp-block-heading\">Hello</h1>\n<!-- /wp:heading -->" :=
  rfl

/-! ### Spacer height (C9) -/

/-- Counterexample to claim C9 as stated: for the present-but-unrecognized
padding size "xs", the spacer height is the fixed fallback "40px", not
the `PADDING_MAP` value of "md" (which is "20px"). -/
theorem renderSpacer_unrecognized_ne_md :
    renderSpacer { padding := some "xs" }
      = "<!-- wp:spacer \x7b\"height\":\"40px\"\x7d -->\n<div style=\"height:40px\" aria-hidden=\"true\" class=\"wp-block-spacer\"></div>\n<!-- /wp:spacer -->"
    ∧ PADDING_MAP.lookup "md" = some "20px"
    ∧ spacerHeight (some "xs") ≠ "20px" := by
  refine ⟨rfl, rfl, ?_⟩
  decide

/-- Claim C9 (amended): the spacer block's height — the same string in the
block JSON and in the emitted div's inline style — is the `PADDING_MAP`
value of the node's padding attribute when that is recognized, the value
for "md" when the attribute is absent or empty, and the fixed fallback
"40px" when it is present but unrecognized. -/
theorem renderSpacer_height (attrs : NodeAttributes) :
    renderSpacer attrs
      = block "spacer" [("height", .jstr (spacerHeight attrs.padding))]
          ("<div style=\"height:" ++ spacerHeight attrs.padding
            ++ "\" aria-hidden=\"true\" class=\"wp-block-spacer\"></div>")
    ∧ (attrs.padding = none → some (spacerHeight attrs.padding) = PADDING_MAP.lookup "md")
    ∧ (attrs.padding = some "" → some (spacerHeight attrs.padding) = PADDING_MAP.lookup "md")
    ∧ (∀ p v, attrs.padding = some p → PADDING_MAP.lookup p = some v →
        spacerHeight attrs.padding = v)
    ∧ (∀ p, attrs.padding = some p → p ≠ "" → PADDING_MAP.lookup p = none →
        spacerHeight attrs.padding = "40px") := by
  refine ⟨rfl, ?_, ?_, ?_, ?_⟩
  · intro h
    rw [h]
    rfl
  · intro h
    rw [h]
    rfl
  · intro p v hp hv
    rw [hp]
    have hne : p ≠ "" := by
      intro he
      rw [he] at hv
      exact Option.noConfusion hv
    have hvne : v ≠ "" := by
      simp only [PADDING_MAP, List.lookup] at hv
      repeat' split at hv
      all_goals (first
        | exact Option.noConfusion hv
        | (cases Option.some.inj hv; decide))
    simp [spacerHeight, jsOrS, tstr, hne, hv, hvne]
  · intro p hp hne hv
    rw [hp]
    simp [spacerHeight, jsOrS, tstr, hne, hv]

/-- Witness for C9's amended theorem at the concrete padding "sm". -/
theorem renderSpacer_height_witness : spacerHeight (some "sm") = "10px" :=
  (renderSpacer_height { padding := some "sm" }).2.2.2.1 "sm" "10px" rfl rfl

/-! ### Column partition (C5) -/

theorem flatten_chunks (k : Nat) (arr : List α) :
    ∀ n, ((List.range n).map (fun i => (arr.drop (i * k)).take k)).flatten = arr.take (n * k) := by
  intro n
  induction n with
  | zero => simp
  | succ m ih =>
    rw [List.range_succ, List.map_append, List.flatten_append, ih]
    simp only [List.map_cons, List.map_nil, List.flatten_cons, List.flatten_nil, List.append_nil]
    rw [← List.take_add]
    congr 1
    ring

theorem flatten_filter_nonempty (l : List (List α)) :
    (l.filter (fun c => !c.isEmpty)).flatten = l.flatten := by
  induction l with
  | nil => rfl
  | cons c rest ih =>
    by_cases h : c.isEmpty
    · have hc : c = [] := by
        cases c
        · rfl
        · simp [List.isEmpty] at h
      simp [List.filter_cons, h, hc, ih]
    · simp [List.filter_cons, h, ih]

/-- Claim C5 (amended): for a columns-layout section whose effective
column count `N = layout.columns || 2` is a positive integer, the
children are split into at most `N` non-empty consecutive chunks whose
concatenation reproduces the child list exactly, with no chunk longer
than `ceil(M/N)`, and `renderChildrenForLayout` renders exactly one
column block per chunk.  (For a negative declared count the loop body
never runs and all children are dropped; see the counterexample.) -/
theorem columns_partition (tokens : DesignTokens) (sec : IRSection)
    (h1 : sec.layout.type = "columns") (h2 : 1 ≤ numColsOf sec.layout) :
    (chunkArray sec.children (numColsOf sec.layout)).flatten = sec.children
    ∧ (chunkArray sec.children (numColsOf sec.layout)).length ≤ (numColsOf sec.layout).toNat
    ∧ (∀ c ∈ chunkArray sec.children (numColsOf sec.layout), c ≠ []
        ∧ c.length ≤ (sec.children.length + (numColsOf sec.layout).toNat - 1)
            / (numColsOf sec.layout).toNat)
    ∧ renderChildrenForLayout tokens sec
      = block "columns" (columnsAttrsOf sec.layout)
          ("<div class=\"wp-block-columns is-layout-flex\"" ++ wpInlineStyle (columnsStyleOf sec.layout)
            ++ ">\n"
            ++ String.intercalate "\n\n"
                ((chunkArray sec.children (numColsOf sec.layout)).map (renderColumn tokens))
            ++ "\n</div>") := by
  set N := numColsOf sec.layout with hN
  set b : Nat := N.toNat with hb
  have hb1 : 1 ≤ b := by
    omega
  set M := sec.children.length with hM
  set k : Nat := (M + b - 1) / b with hk
  have hkb : M ≤ b * k := by
    have hdm := Nat.div_add_mod (M + b - 1) b
    have hlt : (M + b - 1) % b < b := Nat.mod_lt _ (by omega)
    rw [hk]
    omega
  have hchunk : chunkArray sec.children N
      = ((List.range b).map (fun i => (sec.children.drop (i * k)).take k)).filter
          (fun c => !c.isEmpty) := by
    rw [chunkArray]
    have hbz : ¬ b = 0 := by omega
    simp only [← hb, ← hM, ← hk, hbz, if_false]
  refine ⟨?_, ?_, ?_, ?_⟩
  · rw [hchunk, flatten_filter_nonempty, flatten_chunks]
    exact List.take_of_length_le hkb
  · rw [hchunk]
    calc (((List.range b).map (fun i => (sec.children.drop (i * k)).take k)).filter
          (fun c => !c.isEmpty)).length
        ≤ ((List.range b).map (fun i => (sec.children.drop (i * k)).take k)).length :=
          List.length_filter_le _ _
      _ = b := by simp
  · intro c hc
    rw [hchunk] at hc
    have hmem := List.mem_of_mem_filter hc
    have hprop := List.of_mem_filter hc
    constructor
    · intro he
      rw [he] at hprop
      simp at hprop
    · simp only [List.mem_map] at hmem
      obtain ⟨i, _, hi⟩ := hmem
      rw [← hi]
      exact List.length_take_le _ _
  · rw [renderChildrenForLayout, if_pos h1]
    rfl

/-- Witness for C5's amended theorem: a columns section with 3 children
and 2 columns partitions them `[2, 1]` with exact concatenation. -/
theorem columns_partition_witness :
    (chunkArray (IRSection.mk "features"
        { type := "columns", columns := some 2 }
        [.mk .spacer none {} [] none none, .mk .spacer none { padding := some "sm" } [] none none,
         .mk .spacer none { padding := some "lg" } [] none none] none none none none).children
      (numColsOf (IRSection.mk "features"
        { type := "columns", columns := some 2 }
        [.mk .spacer none {} [] none none, .mk .spacer none { padding := some "sm" } [] none none,
         .mk .spacer none { padding := some "lg" } [] none none] none none none none).layout)).flatten
    = (IRSection.mk "features"
        { type := "columns", columns := some 2 }
        [.mk .spacer none {} [] none none, .mk .spacer none { padding := some "sm" } [] none none,
         .mk .spacer none { padding := some "lg" } [] none none] none none none none).children :=
  (columns_partition scenarioTokens _ rfl (by decide)).1

/-- Counterexample to claim C5 as stated: the schema admits a negative
declared column count; with `columns = -1` (a truthy JS number, so not
defaulted) the render loop produces no chunks at all and every child is
dropped, so the concatenation law fails. -/
theorem columns_partition_negative_counterexample :
    numColsOf { type := "columns", columns := some (-1) } = -1
    ∧ chunkArray [(IRNode.mk .paragraph (some "x") {} [] none none)]
        (numColsOf { type := "columns", columns := some (-1) }) = []
    ∧ (chunkArray [(IRNode.mk .paragraph (some "x") {} [] none none)]
        (numColsOf { type := "columns", columns := some (-1) })).flatten
      ≠ [(IRNode.mk .paragraph (some "x") {} [] none none)] := by
  refine ⟨rfl, rfl, ?_⟩
  intro h
  have : ([] : List IRNode) = [IRNode.mk .paragraph (some "x") {} [] none none] := h
  exact List.noConfusion this

/-! ### Reconciliation no-op guards (C8) -/

/-- Claim C8: when the original markup is absent/empty, or the extracted
stylesheet is absent/empty, or the stylesheet defines no class-selector
names, `postprocessClassNames` returns the input document unchanged. -/
theorem postprocessClassNames_noop
    (extractLeaves : String → List String → List LeafElement)
    (extractContainers : String → List String → List ContainerElement)
    (ir : IRDocument) (raw css : String)
    (h : raw = "" ∨ css = "" ∨ extractCssClasses css = []) :
    postprocessClassNames extractLeaves extractContainers ir raw css = ir := by
  by_cases hg : raw = "" ∨ css = ""
  · rw [postprocessClassNames, if_pos hg]
  · have hcss : extractCssClasses css = [] := by tauto
    rw [postprocessClassNames, if_neg hg]
    simp [hcss]

/-- A concrete document for witnesses. -/
def sampleDoc : IRDocument :=
  ⟨"1.0", ⟨"Home", none, none⟩, scenarioTokens, none,
    [⟨"content", ⟨"constrained", none, none, none, none⟩,
      [.mk .paragraph (some "Hi") {} [] none none], none, none, none, none⟩],
    none, none⟩

/-- Witness for C8 at a stylesheet that defines no class selectors. -/
theorem postprocessClassNames_noop_witness :
    postprocessClassNames (fun _ _ => []) (fun _ _ => []) sampleDoc
      "<p class=\"x\">Hi</p>" "body \x7b color: red \x7d" = sampleDoc :=
  postprocessClassNames_noop _ _ _ _ _ (Or.inr (Or.inr (by decide)))

/-! ### Inline-style/JSON consistency (C1) -/

/-- Modelled from the spec sentence fixing the emission sequence: the
recognized inline-style properties in their required order (typography,
then text/background/gradient color, then padding sides top/right/bottom/
left, then margin sides, then gap, then border radius). -/
def styleOrder : List String :=
  ["font-size", "line-height", "letter-spacing", "text-transform",
   "color", "background-color", "background",
   "padding-top", "padding-right", "padding-bottom", "padding-left",
   "margin-top", "margin-right", "margin-bottom", "margin-left",
   "gap", "border-radius"]

/-- The gap value carried by a style object's `spacing.blockGap`
(string form, or the combined/top/left object forms). -/
def gapValueOf (sp : Option SpacingStyle) : Option String :=
  match sp.bind SpacingStyle.blockGap with
  | none => none
  | some (.str s) => if s = "" then none else some s
  | some (.sides t l) =>
      match tstr t, tstr l with
      | some tv, some lv => some (tv ++ " " ++ lv)
      | some tv, none => some tv
      | none, some lv => some lv
      | none, none => none

/-- Spec-side reading of "the value of recognized property `p` present in
the style object", for each property of the fixed sequence. -/
def recognizedValue (bs : BlockStyle) (p : String) : Option String :=
  if p = "font-size" then tstr (bs.typography.bind TypographyStyle.fontSize)
  else if p = "line-height" then tstr (bs.typography.bind TypographyStyle.lineHeight)
  else if p = "letter-spacing" then tstr (bs.typography.bind TypographyStyle.letterSpacing)
  else if p = "text-transform" then tstr (bs.typography.bind TypographyStyle.textTransform)
  else if p = "color" then tstr (bs.color.bind ColorStyle.text)
  else if p = "background-color" then tstr (bs.color.bind ColorStyle.background)
  else if p = "background" then tstr (bs.color.bind ColorStyle.gradient)
  else if p = "padding-top" then tstr ((bs.spacing.bind SpacingStyle.padding).bind SideValues.top)
  else if p = "padding-right" then tstr ((bs.spacing.bind SpacingStyle.padding).bind SideValues.right)
  else if p = "padding-bottom" then tstr ((bs.spacing.bind SpacingStyle.padding).bind SideValues.bottom)
  else if p = "padding-left" then tstr ((bs.spacing.bind SpacingStyle.padding).bind SideValues.left)
  else if p = "margin-top" then tstr ((bs.spacing.bind SpacingStyle.margin).bind SideValues.top)
  else if p = "margin-right" then tstr ((bs.spacing.bind SpacingStyle.margin).bind SideValues.right)
  else if p = "margin-bottom" then tstr ((bs.spacing.bind SpacingStyle.margin).bind SideValues.bottom)
  else if p = "margin-left" then tstr ((bs.spacing.bind SpacingStyle.margin).bind SideValues.left)
  else if p = "gap" then gapValueOf bs.spacing
  else if p = "border-radius" then tstr (bs.border.bind BorderStyle.radius)
  else none

theorem mem_optP {p v q : String} {o : Option String} :
    (p, v) ∈ optP q o ↔ p = q ∧ tstr o = some v := by
  unfold optP
  cases h : tstr o with
  | none => simp
  | some s =>
    simp only [List.mem_singleton, Prod.mk.injEq, Option.some.injEq]
    constructor
    · rintro ⟨h1, h2⟩
      exact ⟨h1, h2.symm⟩
    · rintro ⟨h1, h2⟩
      exact ⟨h1, h2.symm⟩

theorem optP_fst_sublist (q : String) (o : Option String) :
    ((optP q o).map Prod.fst).Sublist [q] := by
  unfold optP
  cases tstr o <;> simp

theorem mem_gapStyles {p v : String} {sp : Option SpacingStyle} :
    (p, v) ∈ gapStyles sp ↔ p = "gap" ∧ gapValueOf sp = some v := by
  unfold gapStyles gapValueOf
  rcases sp.bind SpacingStyle.blockGap with _ | (s | ⟨t, l⟩)
  · simp
  · by_cases h : s = "" <;> simp [h] <;> tauto
  · rcases ht : tstr t with _ | tv <;> rcases hl : tstr l with _ | lv <;>
      simp [ht, hl] <;> tauto

theorem gapStyles_fst_sublist (sp : Option SpacingStyle) :
    ((gapStyles sp).map Prod.fst).Sublist ["gap"] := by
  unfold gapStyles
  rcases sp.bind SpacingStyle.blockGap with _ | (s | ⟨t, l⟩)
  · simp
  · by_cases h : s = "" <;> simp [h]
  · rcases ht : tstr t with _ | tv <;> rcases hl : tstr l with _ | lv <;> simp [ht, hl]

theorem recognizedValue_fs (bs : BlockStyle) :
    recognizedValue bs "font-size" = tstr (bs.typography.bind TypographyStyle.fontSize) := rfl

theorem recognizedValue_lh (bs : BlockStyle) :
    recognizedValue bs "line-height" = tstr (bs.typography.bind TypographyStyle.lineHeight) := rfl

theorem recognizedValue_ls (bs : BlockStyle) :
    recognizedValue bs "letter-spacing" = tstr (bs.typography.bind TypographyStyle.letterSpacing) := rfl

theorem recognizedValue_tt (bs : BlockStyle) :
    recognizedValue bs "text-transform" = tstr (bs.typography.bind TypographyStyle.textTransform) := rfl

theorem recognizedValue_ct (bs : BlockStyle) :
    recognizedValue bs "color" = tstr (bs.color.bind ColorStyle.text) := rfl

theorem recognizedValue_bc (bs : BlockStyle) :
    recognizedValue bs "background-color" = tstr (bs.color.bind ColorStyle.background) := rfl

theorem recognizedValue_bgr (bs : BlockStyle) :
    recognizedValue bs "background" = tstr (bs.color.bind ColorStyle.gradient) := rfl

theorem recognizedValue_pt (bs : BlockStyle) :
    recognizedValue bs "padding-top"
      = tstr ((bs.spacing.bind SpacingStyle.padding).bind SideValues.top) := rfl

theorem recognizedValue_pr (bs : BlockStyle) :
    recognizedValue bs "padding-right"
      = tstr ((bs.spacing.bind SpacingStyle.padding).bind SideValues.right) := rfl

theorem recognizedValue_pb (bs : BlockStyle) :
    recognizedValue bs "padding-bottom"
      = tstr ((bs.spacing.bind SpacingStyle.padding).bind SideValues.bottom) := rfl

theorem recognizedValue_pl (bs : BlockStyle) :
    recognizedValue bs "padding-left"
      = tstr ((bs.spacing.bind SpacingStyle.padding).bind SideValues.left) := rfl

theorem recognizedValue_mt (bs : BlockStyle) :
    recognizedValue bs "margin-top"
      = tstr ((bs.spacing.bind SpacingStyle.margin).bind SideValues.top) := rfl

theorem recognizedValue_mr (bs : BlockStyle) :
    recognizedValue bs "margin-right"
      = tstr ((bs.spacing.bind SpacingStyle.margin).bind SideValues.right) := rfl

theorem recognizedValue_mb (bs : BlockStyle) :
    recognizedValue bs "margin-bottom"
      = tstr ((bs.spacing.bind SpacingStyle.margin).bind SideValues.bottom) := rfl

theorem recognizedValue_ml (bs : BlockStyle) :
    recognizedValue bs "margin-left"
      = tstr ((bs.spacing.bind SpacingStyle.margin).bind SideValues.left) := rfl

theorem recognizedValue_gap (bs : BlockStyle) :
    recognizedValue bs "gap" = gapValueOf bs.spacing := rfl

theorem recognizedValue_br (bs : BlockStyle) :
    recognizedValue bs "border-radius" = tstr (bs.border.bind BorderStyle.radius) := rfl

/-- Helper: the forward (completeness) direction of C1 membership. -/
theorem mem_wpStyles_to_recognized {bs : BlockStyle} {p v : String}
    (hm : (p, v) ∈ wpStyles bs) : recognizedValue bs p = some v := by
  simp only [wpStyles, List.mem_append] at hm
  rcases hm with ((((hm | hm) | hm) | hm) | hm) | hm
  · unfold typoStyles at hm
    simp only [List.mem_append, mem_optP] at hm
    rcases hm with ((⟨rfl, h⟩ | ⟨rfl, h⟩) | ⟨rfl, h⟩) | ⟨rfl, h⟩
    · rw [recognizedValue_fs]
      exact h
    · rw [recognizedValue_lh]
      exact h
    · rw [recognizedValue_ls]
      exact h
    · rw [recognizedValue_tt]
      exact h
  · unfold colorStyles at hm
    simp only [List.mem_append, mem_optP] at hm
    rcases hm with (⟨rfl, h⟩ | ⟨rfl, h⟩) | ⟨rfl, h⟩
    · rw [recognizedValue_ct]
      exact h
    · rw [recognizedValue_bc]
      exact h
    · rw [recognizedValue_bgr]
      exact h
  · unfold paddingStyles at hm
    rcases hsp : bs.spacing.bind SpacingStyle.padding with _ | pad
    · rw [hsp] at hm
      simp at hm
    · rw [hsp] at hm
      simp only [List.mem_append, mem_optP] at hm
      rcases hm with ((⟨rfl, h⟩ | ⟨rfl, h⟩) | ⟨rfl, h⟩) | ⟨rfl, h⟩
      · rw [recognizedValue_pt, hsp]
        exact h
      · rw [recognizedValue_pr, hsp]
        exact h
      · rw [recognizedValue_pb, hsp]
        exact h
      · rw [recognizedValue_pl, hsp]
        exact h
  · unfold marginStyles at hm
    rcases hsp : bs.spacing.bind SpacingStyle.margin with _ | mar
    · rw [hsp] at hm
      simp at hm
    · rw [hsp] at hm
      simp only [List.mem_append, mem_optP] at hm
      rcases hm with ((⟨rfl, h⟩ | ⟨rfl, h⟩) | ⟨rfl, h⟩) | ⟨rfl, h⟩
      · rw [recognizedValue_mt, hsp]
        exact h
      · rw [recognizedValue_mr, hsp]
        exact h
      · rw [recognizedValue_mb, hsp]
        exact h
      · rw [recognizedValue_ml, hsp]
        exact h
  · rw [mem_gapStyles] at hm
    rcases hm with ⟨rfl, h⟩
    rw [recognizedValue_gap]
    exact h
  · unfold borderStyles at hm
    rw [mem_optP] at hm
    rcases hm with ⟨rfl, h⟩
    rw [recognizedValue_br]
    exact h

/-- Helper: the backward (soundness) direction of C1 membership. -/
theorem recognized_to_mem_wpStyles {bs : BlockStyle} {p v : String}
    (h : recognizedValue bs p = some v) : (p, v) ∈ wpStyles bs := by
  simp only [wpStyles, List.mem_append]
  by_cases h1 : p = "font-size"
  · subst h1
    rw [recognizedValue_fs] at h
    exact Or.inl (Or.inl (Or.inl (Or.inl (Or.inl (by
      unfold typoStyles
      simp [mem_optP, h])))))
  by_cases h2 : p = "line-height"
  · subst h2
    rw [recognizedValue_lh] at h
    exact Or.inl (Or.inl (Or.inl (Or.inl (Or.inl (by
      unfold typoStyles
      simp [mem_optP, h])))))
  by_cases h3 : p = "letter-spacing"
  · subst h3
    rw [recognizedValue_ls] at h
    exact Or.inl (Or.inl (Or.inl (Or.inl (Or.inl (by
      unfold typoStyles
      simp [mem_optP, h])))))
  by_cases h4 : p = "text-transform"
  · subst h4
    rw [recognizedValue_tt] at h
    exact Or.inl (Or.inl (Or.inl (Or.inl (Or.inl (by
      unfold typoStyles
      simp [mem_optP, h])))))
  by_cases h5 : p = "color"
  · subst h5
    rw [recognizedValue_ct] at h
    exact Or.inl (Or.inl (Or.inl (Or.inl (Or.inr (by
      unfold colorStyles
      simp [mem_optP, h])))))
  by_cases h6 : p = "background-color"
  · subst h6
    rw [recognizedValue_bc] at h
    exact Or.inl (Or.inl (Or.inl (Or.inl (Or.inr (by
      unfold colorStyles
      simp [mem_optP, h])))))
  by_cases h7 : p = "background"
  · subst h7
    rw [recognizedValue_bgr] at h
    exact Or.inl (Or.inl (Or.inl (Or.inl (Or.inr (by
      unfold colorStyles
      simp [mem_optP, h])))))
  by_cases h8 : p = "padding-top"
  · subst h8
    rw [recognizedValue_pt] at h
    refine Or.inl (Or.inl (Or.inl (Or.inr ?_)))
    unfold paddingStyles
    rcases hsp : bs.spacing.bind SpacingStyle.padding with _ | pad
    · rw [hsp] at h
      simp [tstr] at h
    · rw [hsp] at h
      simp only [Option.some_bind] at h
      simp [mem_optP, h]
  by_cases h9 : p = "padding-right"
  · subst h9
    rw [recognizedValue_pr] at h
    refine Or.inl (Or.inl (Or.inl (Or.inr ?_)))
    unfold paddingStyles
    rcases hsp : bs.spacing.bind SpacingStyle.padding with _ | pad
    · rw [hsp] at h
      simp [tstr] at h
    · rw [hsp] at h
      simp only [Option.some_bind] at h
      simp [mem_optP, h]
  by_cases h10 : p = "padding-bottom"
  · subst h10
    rw [recognizedValue_pb] at h
    refine Or.inl (Or.inl (Or.inl (Or.inr ?_)))
    unfold paddingStyles
    rcases hsp : bs.spacing.bind SpacingStyle.padding with _ | pad
    · rw [hsp] at h
      simp [tstr] at h
    · rw [hsp] at h
      simp only [Option.some_bind] at h
      simp [mem_optP, h]
  by_cases h11 : p = "padding-left"
  · subst h11
    rw [recognizedValue_pl] at h
    refine Or.inl (Or.inl (Or.inl (Or.inr ?_)))
    unfold paddingStyles
    rcases hsp : bs.spacing.bind SpacingStyle.padding with _ | pad
    · rw [hsp] at h
      simp [tstr] at h
    · rw [hsp] at h
      simp only [Option.some_bind] at h
      simp [mem_optP, h]
  by_cases h12 : p = "margin-top"
  · subst h12
    rw [recognizedValue_mt] at h
    refine Or.inl (Or.inl (Or.inr ?_))
    unfold marginStyles
    rcases hsp : bs.spacing.bind SpacingStyle.margin with _ | mar
    · rw [hsp] at h
      simp [tstr] at h
    · rw [hsp] at h
      simp only [Option.some_bind] at h
      simp [mem_optP, h]
  by_cases h13 : p = "margin-right"
  · subst h13
    rw [recognizedValue_mr] at h
    refine Or.inl (Or.inl (Or.inr ?_))
    unfold marginStyles
    rcases hsp : bs.spacing.bind SpacingStyle.margin with _ | mar
    · rw [hsp] at h
      simp [tstr] at h
    · rw [hsp] at h
      simp only [Option.some_bind] at h
      simp [mem_optP, h]
  by_cases h14 : p = "margin-bottom"
  · subst h14
    rw [recognizedValue_mb] at h
    refine Or.inl (Or.inl (Or.inr ?_))
    unfold marginStyles
    rcases hsp : bs.spacing.bind SpacingStyle.margin with _ | mar
    · rw [hsp] at h
      simp [tstr] at h
    · rw [hsp] at h
      simp only [Option.some_bind] at h
      simp [mem_optP, h]
  by_cases h15 : p = "margin-left"
  · subst h15
    rw [recognizedValue_ml] at h
    refine Or.inl (Or.inl (Or.inr ?_))
    unfold marginStyles
    rcases hsp : bs.spacing.bind SpacingStyle.margin with _ | mar
    · rw [hsp] at h
      simp [tstr] at h
    · rw [hsp] at h
      simp only [Option.some_bind] at h
      simp [mem_optP, h]
  by_cases h16 : p = "gap"
  · subst h16
    rw [recognizedValue_gap] at h
    exact Or.inl (Or.inr (mem_gapStyles.mpr ⟨rfl, h⟩))
  by_cases h17 : p = "border-radius"
  · subst h17
    rw [recognizedValue_br] at h
    refine Or.inr ?_
    unfold borderStyles
    rw [mem_optP]
    exact ⟨rfl, h⟩
  exfalso
  rw [recognizedValue] at h
  rw [if_neg h1, if_neg h2, if_neg h3, if_neg h4, if_neg h5, if_neg h6, if_neg h7,
    if_neg h8, if_neg h9, if_neg h10, if_neg h11, if_neg h12, if_neg h13, if_neg h14,
    if_neg h15, if_neg h16, if_neg h17] at h
  exact Option.noConfusion h

/-- Claim C1: for every structured block style object — including the
border-only object built for the outline button variant — the inline
style pair list contains exactly the recognized typography / color /
padding / margin / gap / border-radius values present in the object (the
membership biconditional), and the properties appear in the fixed
sequence `styleOrder` (the sublist fact); the outline border object has
no recognized values, so its inline style is empty. -/
theorem wpInlineStyle_exact (bs : BlockStyle) :
    ((wpStyles bs).map Prod.fst).Sublist styleOrder
    ∧ (∀ p v, (p, v) ∈ wpStyles bs ↔ recognizedValue bs p = some v)
    ∧ wpInlineStyleCore outlineBorderStyle = "" := by
  refine ⟨?_, fun p v => ⟨mem_wpStyles_to_recognized, recognized_to_mem_wpStyles⟩, rfl⟩
  show ((typoStyles bs.typography ++ colorStyles bs.color ++ paddingStyles bs.spacing
    ++ marginStyles bs.spacing ++ gapStyles bs.spacing ++ borderStyles bs.border).map
      Prod.fst).Sublist
    (["font-size", "line-height", "letter-spacing", "text-transform"]
      ++ ["color", "background-color", "background"]
      ++ ["padding-top", "padding-right", "padding-bottom", "padding-left"]
      ++ ["margin-top", "margin-right", "margin-bottom", "margin-left"]
      ++ ["gap"] ++ ["border-radius"])
  simp only [List.map_append]
  have hty : ((typoStyles bs.typography).map Prod.fst).Sublist
      ["font-size", "line-height", "letter-spacing", "text-transform"] := by
    unfold typoStyles
    simp only [List.map_append]
    have := ((((optP_fst_sublist "font-size" (bs.typography.bind TypographyStyle.fontSize)).append
      (optP_fst_sublist "line-height" (bs.typography.bind TypographyStyle.lineHeight))).append
      (optP_fst_sublist "letter-spacing" (bs.typography.bind TypographyStyle.letterSpacing))).append
      (optP_fst_sublist "text-transform" (bs.typography.bind TypographyStyle.textTransform)))
    simpa using this
  have hco : ((colorStyles bs.color).map Prod.fst).Sublist
      ["color", "background-color", "background"] := by
    unfold colorStyles
    simp only [List.map_append]
    have := (((optP_fst_sublist "color" (bs.color.bind ColorStyle.text)).append
      (optP_fst_sublist "background-color" (bs.color.bind ColorStyle.background))).append
      (optP_fst_sublist "background" (bs.color.bind ColorStyle.gradient)))
    simpa using this
  have hpa : ((paddingStyles bs.spacing).map Prod.fst).Sublist
      ["padding-top", "padding-right", "padding-bottom", "padding-left"] := by
    unfold paddingStyles
    rcases bs.spacing.bind SpacingStyle.padding with _ | pad
    · simp
    · simp only [List.map_append]
      have := ((((optP_fst_sublist "padding-top" pad.top).append
        (optP_fst_sublist "padding-right" pad.right)).append
        (optP_fst_sublist "padding-bottom" pad.bottom)).append
        (optP_fst_sublist "padding-left" pad.left))
      simpa using this
  have hma : ((marginStyles bs.spacing).map Prod.fst).Sublist
      ["margin-top", "margin-right", "margin-bottom", "margin-left"] := by
    unfold marginStyles
    rcases bs.spacing.bind SpacingStyle.margin with _ | mar
    · simp
    · simp only [List.map_append]
      have := ((((optP_fst_sublist "margin-top" mar.top).append
        (optP_fst_sublist "margin-right" mar.right)).append
        (optP_fst_sublist "margin-bottom" mar.bottom)).append
        (optP_fst_sublist "margin-left" mar.left))
      simpa using this
  have hga := gapStyles_fst_sublist bs.spacing
  have hbo : ((borderStyles bs.border).map Prod.fst).Sublist ["border-radius"] :=
    optP_fst_sublist "border-radius" (bs.border.bind BorderStyle.radius)
  exact ((((hty.append hco).append hpa).append hma).append hga).append hbo

/-! ### Frame effect of reconciliation (C4)

`stripNode`/`stripSection`/`stripDoc` erase every `className` field and
nothing else; two values are equal after stripping exactly when they
agree on everything except class names. -/

mutual

def stripNode : IRNode → IRNode
  | .mk t c a ch st _ => .mk t c a (stripNodes ch) st none

def stripNodes : List IRNode → List IRNode
  | [] => []
  | n :: rest => stripNode n :: stripNodes rest

end

def stripSection (s : IRSection) : IRSection :=
  { s with className := none, children := stripNodes s.children }

def stripDoc (d : IRDocument) : IRDocument :=
  { d with header := d.header.map stripSection,
           sections := d.sections.map stripSection,
           footer := d.footer.map stripSection }

mutual

theorem walkNodeR_strip (leaves : List LeafElement) (conts : List ContainerElement) :
    ∀ (st : RecState) (n : IRNode),
      stripNode (walkNodeR leaves conts st n).1 = stripNode n
  | st, .mk t c a ch irStyle cn => by
    have ihl : ∀ st2, stripNodes (walkListR leaves conts st2 ch).1 = stripNodes ch :=
      fun st2 => walkListR_strip leaves conts st2 ch
    simp [walkNodeR, stripNode, ihl]

theorem walkListR_strip (leaves : List LeafElement) (conts : List ContainerElement) :
    ∀ (st : RecState) (l : List IRNode),
      stripNodes (walkListR leaves conts st l).1 = stripNodes l
  | _, [] => by simp [walkListR, stripNodes]
  | st, n :: rest => by
    have ihn := walkNodeR_strip leaves conts st n
    have ihr : ∀ st2, stripNodes (walkListR leaves conts st2 rest).1 = stripNodes rest :=
      fun st2 => walkListR_strip leaves conts st2 rest
    simp [walkListR, stripNodes, ihn, ihr]

end

theorem walkSectionR_strip (leaves : List LeafElement) (conts : List ContainerElement)
    (st : RecState) (sec : IRSection) :
    stripSection (walkSectionR leaves conts st sec).1 = stripSection sec := by
  simp [walkSectionR, stripSection, walkListR_strip]

theorem walkSectionsR_strip (leaves : List LeafElement) (conts : List ContainerElement) :
    ∀ (st : RecState) (l : List IRSection),
      (walkSectionsR leaves conts st l).1.map stripSection = l.map stripSection := by
  intro st l
  induction l generalizing st with
  | nil => simp [walkSectionsR]
  | cons s rest ih =>
    simp [walkSectionsR, walkSectionR_strip, ih]

theorem walkOptSectionR_strip (leaves : List LeafElement) (conts : List ContainerElement)
    (st : RecState) (o : Option IRSection) :
    (walkOptSectionR leaves conts st o).1.map stripSection = o.map stripSection := by
  cases o with
  | none => simp [walkOptSectionR]
  | some s => simp [walkOptSectionR, walkSectionR_strip]

/-- Claim C4: the document returned by `postprocessClassNames` differs
from the input at most in the `className` fields of its sections and
nodes — version, metadata, design tokens, section order, layouts,
backgrounds, node kinds, content, attributes, style maps and children
structure are all unchanged (stripping class names from input and output
yields identical documents). -/
theorem postprocessClassNames_frame
    (extractLeaves : String → List String → List LeafElement)
    (extractContainers : String → List String → List ContainerElement)
    (ir : IRDocument) (raw css : String) :
    stripDoc (postprocessClassNames extractLeaves extractContainers ir raw css)
      = stripDoc ir := by
  rw [postprocessClassNames]
  by_cases hg : raw = "" ∨ css = ""
  · rw [if_pos hg]
  · rw [if_neg hg]
    by_cases hcss : (extractCssClasses css).isEmpty
    · simp [hcss]
    · simp only [hcss, Bool.false_eq_true, if_false]
      rw [postprocessCoreR]
      simp only [stripDoc]
      simp [walkOptSectionR_strip, walkSectionsR_strip]

/-! ### At-most-once consumption (C3)

`StepOK st st2 lg` says: a walk step starting in used-set state `st` and
ending in `st2` logged exactly the merge events `lg`, each of which
consumed an identifier that was fresh at the start of the step and is
consumed afterwards, with no duplicates; used sets only grow. -/

def StepOK (st st2 : RecState) (lg : Log) : Prop :=
  (∀ i ∈ lg.1, i ∉ st.usedLeafIds ∧ i ∈ st2.usedLeafIds)
  ∧ (∀ i ∈ lg.2, i ∉ st.usedContainerIds ∧ i ∈ st2.usedContainerIds)
  ∧ lg.1.Nodup ∧ lg.2.Nodup
  ∧ (∀ i ∈ st.usedLeafIds, i ∈ st2.usedLeafIds)
  ∧ (∀ i ∈ st.usedContainerIds, i ∈ st2.usedContainerIds)

theorem stepOK_empty (st : RecState) : StepOK st st emptyLog := by
  refine ⟨?_, ?_, ?_, ?_, fun _ h => h, fun _ h => h⟩ <;> simp [emptyLog]

theorem StepOK.seq {st st1 st2 : RecState} {lg1 lg2 : Log}
    (h1 : StepOK st st1 lg1) (h2 : StepOK st1 st2 lg2) :
    StepOK st st2 (logAppend lg1 lg2) := by
  obtain ⟨a1, b1, c1, d1, e1, f1⟩ := h1
  obtain ⟨a2, b2, c2, d2, e2, f2⟩ := h2
  refine ⟨?_, ?_, ?_, ?_, fun i h => e2 i (e1 i h), fun i h => f2 i (f1 i h)⟩
  · intro i hi
    simp only [logAppend, List.mem_append] at hi
    rcases hi with hi | hi
    · exact ⟨(a1 i hi).1, e2 i (a1 i hi).2⟩
    · exact ⟨fun hc => (a2 i hi).1 (e1 i hc), (a2 i hi).2⟩
  · intro i hi
    simp only [logAppend, List.mem_append] at hi
    rcases hi with hi | hi
    · exact ⟨(b1 i hi).1, f2 i (b1 i hi).2⟩
    · exact ⟨fun hc => (b2 i hi).1 (f1 i hc), (b2 i hi).2⟩
  · exact c1.append c2 (fun i hi1 hi2 => (a2 i hi2).1 ((a1 i hi1).2))
  · exact d1.append d2 (fun i hi1 hi2 => (b2 i hi2).1 ((b1 i hi1).2))

/-- A leaf returned by `findLeafMatch` is unused in the query state. -/
theorem findLeafMatch_unused {leaves : List LeafElement} {st : RecState} {key : String}
    {t : NodeType} {m : LeafElement} (h : findLeafMatch leaves st key t = some m) :
    m.id ∉ st.usedLeafIds := by
  unfold findLeafMatch at h
  split at h
  case h_1 l heq =>
    obtain rfl : l = m := Option.some.inj h
    have := List.find?_some heq
    simp_all
  case h_2 heq =>
    have := List.find?_some h
    simp_all

/-- One `fcmStep` keeps the running best an unused candidate. -/
theorem fcmStep_unused {st : RecState} {tgt : List String} {mo : Nat}
    {acc : Option (ContainerElement × Nat × ℚ × Nat)} {c : ContainerElement}
    {y : ContainerElement × Nat × ℚ × Nat}
    (hacc : ∀ x, acc = some x → x.1.id ∉ st.usedContainerIds)
    (hy : fcmStep st tgt mo acc c = some y) : y.1.id ∉ st.usedContainerIds := by
  unfold fcmStep at hy
  by_cases hused : st.usedContainerIds.contains c.id
  · rw [if_pos hused] at hy
    exact hacc y hy
  · rw [if_neg hused] at hy
    by_cases hth : overlapOf tgt c < mo
    · rw [if_pos hth] at hy
      exact hacc y hy
    · rw [if_neg hth] at hy
      rcases acc with _ | ⟨b, bo, br, bsz⟩
      · dsimp only at hy
        obtain rfl := Option.some.inj hy
        simpa using hused
      · dsimp only at hy
        split at hy
        · obtain rfl := Option.some.inj hy
          simpa using hused
        · obtain rfl := Option.some.inj hy
          exact hacc (b, bo, br, bsz) rfl

/-- Along the `findContainerMatch` fold, the running best (when present)
is always an unused candidate. -/
theorem fcmFold_unused {st : RecState} {tgt : List String} {mo : Nat} :
    ∀ (cs : List ContainerElement) (acc : Option (ContainerElement × Nat × ℚ × Nat)),
      (∀ x, acc = some x → x.1.id ∉ st.usedContainerIds) →
      ∀ x, cs.foldl (fcmStep st tgt mo) acc = some x → x.1.id ∉ st.usedContainerIds := by
  intro cs
  induction cs with
  | nil =>
    intro acc hacc x hx
    exact hacc x hx
  | cons c rest ih =>
    intro acc hacc x hx
    simp only [List.foldl_cons] at hx
    exact ih (fcmStep st tgt mo acc c) (fun y hy => fcmStep_unused hacc hy) x hx

/-- A container returned by `findContainerMatch` is unused in the query
state. -/
theorem findContainerMatch_unused {conts : List ContainerElement} {st : RecState}
    {tgt : List String} {m : ContainerElement}
    (h : findContainerMatch conts st tgt = some m) :
    m.id ∉ st.usedContainerIds := by
  unfold findContainerMatch at h
  by_cases he : tgt.isEmpty
  · rw [if_pos he] at h
    exact Option.noConfusion h
  · rw [if_neg he] at h
    cases hf : conts.foldl (fcmStep st tgt (minOverlapOf tgt.length)) none with
    | none =>
      rw [hf] at h
      exact Option.noConfusion h
    | some x =>
      rw [hf] at h
      simp only [Option.map_some', Option.some.injEq] at h
      rw [← h]
      exact fcmFold_unused conts none (by simp) x hf

theorem applyLeafStep_ok (leaves : List LeafElement) (st : RecState) (t : NodeType)
    (c : Option String) (a : NodeAttributes) (cn : Option String) :
    StepOK st (applyLeafStep leaves st t c a cn).2.1 (applyLeafStep leaves st t c a cn).2.2 := by
  unfold applyLeafStep
  cases hk : nodeLeafKey t c a with
  | none => exact stepOK_empty st
  | some key =>
    dsimp only
    cases hm : findLeafMatch leaves st key t with
    | none => exact stepOK_empty st
    | some m =>
      dsimp only
      by_cases hc : m.classes.isEmpty
      · simp only [hc, if_true]
        exact stepOK_empty st
      · simp only [hc, Bool.false_eq_true, if_false]
        refine ⟨?_, ?_, ?_, ?_, ?_, fun i h => h⟩
        · intro i hi
          simp only [List.mem_singleton] at hi
          subst hi
          exact ⟨findLeafMatch_unused hm, by simp⟩
        · intro i hi
          simp at hi
        · simp
        · simp
        · intro i hi
          simp only [List.mem_append]
          exact Or.inl hi

theorem applyContainerStep_ok (conts : List ContainerElement) (st : RecState)
    (keys : List String) (cn : Option String) :
    StepOK st (applyContainerStep conts st keys cn).2.1
      (applyContainerStep conts st keys cn).2.2 := by
  unfold applyContainerStep
  by_cases he : keys.isEmpty
  · simp only [he, if_true]
    exact stepOK_empty st
  · simp only [he, Bool.false_eq_true, if_false]
    cases hm : findContainerMatch conts st keys with
    | none => exact stepOK_empty st
    | some m =>
      by_cases hc : m.classes.isEmpty
      · simp only [hc, if_true]
        exact stepOK_empty st
      · simp only [hc, Bool.false_eq_true, if_false]
        refine ⟨?_, ?_, ?_, ?_, fun i h => h, ?_⟩
        · intro i hi
          simp at hi
        · intro i hi
          simp only [List.mem_singleton] at hi
          subst hi
          exact ⟨findContainerMatch_unused hm, by simp⟩
        · simp
        · simp
        · intro i hi
          simp only [List.mem_append]
          exact Or.inl hi

mutual

theorem walkNodeR_ok (leaves : List LeafElement) (conts : List ContainerElement) :
    ∀ (st : RecState) (n : IRNode),
      StepOK st (walkNodeR leaves conts st n).2.1 (walkNodeR leaves conts st n).2.2
  | st, .mk t c a ch irStyle cn => by
    have okl : ∀ st2, StepOK st2 (walkListR leaves conts st2 ch).2.1
        (walkListR leaves conts st2 ch).2.2 :=
      fun st2 => walkListR_ok leaves conts st2 ch
    by_cases hg : t = NodeType.group
    · simp only [walkNodeR, hg, if_pos]
      exact (applyLeafStep_ok leaves st .group c a cn).seq
        ((applyContainerStep_ok conts _ _ _).seq (okl _))
    · simp only [walkNodeR, hg, Bool.false_eq_true, if_false]
      exact (applyLeafStep_ok leaves st t c a cn).seq ((stepOK_empty _).seq (okl _))

theorem walkListR_ok (leaves : List LeafElement) (conts : List ContainerElement) :
    ∀ (st : RecState) (l : List IRNode),
      StepOK st (walkListR leaves conts st l).2.1 (walkListR leaves conts st l).2.2
  | st, [] => by
    simp only [walkListR]
    exact stepOK_empty st
  | st, n :: rest => by
    simp only [walkListR]
    exact (walkNodeR_ok leaves conts st n).seq (walkListR_ok leaves conts _ rest)

end

theorem walkSectionR_ok (leaves : List LeafElement) (conts : List ContainerElement)
    (st : RecState) (sec : IRSection) :
    StepOK st (walkSectionR leaves conts st sec).2.1 (walkSectionR leaves conts st sec).2.2 := by
  simp only [walkSectionR]
  exact (applyContainerStep_ok conts st _ sec.className).seq (walkListR_ok leaves conts _ _)

theorem walkSectionsR_ok (leaves : List LeafElement) (conts : List ContainerElement) :
    ∀ (st : RecState) (l : List IRSection),
      StepOK st (walkSectionsR leaves conts st l).2.1 (walkSectionsR leaves conts st l).2.2 := by
  intro st l
  induction l generalizing st with
  | nil =>
    simp only [walkSectionsR]
    exact stepOK_empty st
  | cons s rest ih =>
    simp only [walkSectionsR]
    exact (walkSectionR_ok leaves conts st s).seq (ih _)

theorem walkOptSectionR_ok (leaves : List LeafElement) (conts : List ContainerElement)
    (st : RecState) (o : Option IRSection) :
    StepOK st (walkOptSectionR leaves conts st o).2.1 (walkOptSectionR leaves conts st o).2.2 := by
  cases o with
  | none =>
    simp only [walkOptSectionR]
    exact stepOK_empty st
  | some s =>
    simp only [walkOptSectionR]
    exact walkSectionR_ok leaves conts st s

/-- Claim C3: within a single `postprocessClassNames` call, each original
leaf and each original container has its classes merged into at most one
IR node or section: the chronological log of consumed leaf identifiers
over header, body sections and footer has no duplicates, and likewise
for container identifiers.  (Every merge is logged exactly where the
source adds the identifier to its used set.) -/
theorem postprocessCoreR_at_most_once (leaves : List LeafElement)
    (conts : List ContainerElement) (ir : IRDocument) :
    (postprocessCoreR leaves conts ir).2.1.Nodup
    ∧ (postprocessCoreR leaves conts ir).2.2.Nodup := by
  have hok : StepOK ⟨[], []⟩
      (walkOptSectionR leaves conts
        (walkSectionsR leaves conts
          (walkOptSectionR leaves conts ⟨[], []⟩ ir.header).2.1 ir.sections).2.1 ir.footer).2.1
      (postprocessCoreR leaves conts ir).2 := by
    simp only [postprocessCoreR]
    exact (walkOptSectionR_ok leaves conts _ _).seq
      ((walkSectionsR_ok leaves conts _ _).seq (walkOptSectionR_ok leaves conts _ _))
  exact ⟨hok.2.2.1, hok.2.2.2.1⟩

/-! ### Container-match selection (C6) -/

/-- A candidate the matcher may select: listed, unused, and with key
overlap meeting the minimum threshold. -/
def qualifiesCand (conts : List ContainerElement) (st : RecState) (tgt : List String)
    (c : ContainerElement) : Prop :=
  c ∈ conts ∧ c.id ∉ st.usedContainerIds ∧ minOverlapOf tgt.length ≤ overlapOf tgt c

/-- `d` strictly beats `c`: larger overlap; or equal overlap and larger
overlap/size ratio; or equal both and smaller leaf-key count. -/
def betterCand (tgt : List String) (d c : ContainerElement) : Prop :=
  overlapOf tgt c < overlapOf tgt d
  ∨ (overlapOf tgt d = overlapOf tgt c
      ∧ ratioOf (overlapOf tgt c) c.leafKeys.length
          < ratioOf (overlapOf tgt d) d.leafKeys.length)
  ∨ (overlapOf tgt d = overlapOf tgt c
      ∧ ratioOf (overlapOf tgt d) d.leafKeys.length
          = ratioOf (overlapOf tgt c) c.leafKeys.length
      ∧ d.leafKeys.length < c.leafKeys.length)

theorem betterCand_irrefl (tgt : List String) (c : ContainerElement) :
    ¬ betterCand tgt c c := by
  unfold betterCand
  rintro (h | ⟨_, h⟩ | ⟨_, _, h⟩) <;> exact absurd h (by simp)

theorem betterCand_trans {tgt : List String} {a b c : ContainerElement}
    (h1 : betterCand tgt a b) (h2 : betterCand tgt b c) : betterCand tgt a c := by
  unfold betterCand at h1 h2 ⊢
  rcases h1 with h1 | ⟨e1, h1⟩ | ⟨e1, f1, h1⟩ <;>
    rcases h2 with h2 | ⟨e2, h2⟩ | ⟨e2, f2, h2⟩
  · exact Or.inl (lt_trans h2 h1)
  · exact Or.inl (lt_of_eq_of_lt e2.symm h1)
  · exact Or.inl (lt_of_eq_of_lt e2.symm h1)
  · exact Or.inl (lt_of_lt_of_eq h2 e1.symm)
  · exact Or.inr (Or.inl ⟨e1.trans e2, lt_trans h2 h1⟩)
  · exact Or.inr (Or.inl ⟨e1.trans e2, lt_of_eq_of_lt f2.symm h1⟩)
  · exact Or.inl (lt_of_lt_of_eq h2 e1.symm)
  · exact Or.inr (Or.inl ⟨e1.trans e2, lt_of_lt_of_eq h2 f1.symm⟩)
  · exact Or.inr (Or.inr ⟨e1.trans e2, f1.trans f2, lt_trans h1 h2⟩)

/-- The invariant carried along the `findContainerMatch` fold over the
already-seen candidates. -/
def accInv (st : RecState) (tgt : List String) (mo : Nat)
    (seen : List ContainerElement) : Option (ContainerElement × Nat × ℚ × Nat) → Prop
  | none => ∀ d ∈ seen, ¬ (d.id ∉ st.usedContainerIds ∧ mo ≤ overlapOf tgt d)
  | some (b, bo, br, bsz) =>
      b ∈ seen ∧ b.id ∉ st.usedContainerIds ∧ mo ≤ overlapOf tgt b
      ∧ bo = overlapOf tgt b ∧ br = ratioOf bo b.leafKeys.length ∧ bsz = b.leafKeys.length
      ∧ ∀ d ∈ seen, d.id ∉ st.usedContainerIds → mo ≤ overlapOf tgt d → ¬ betterCand tgt d b

theorem fcmStep_inv {st : RecState} {tgt : List String} {mo : Nat}
    {seen : List ContainerElement} {acc : Option (ContainerElement × Nat × ℚ × Nat)}
    (c : ContainerElement) (h : accInv st tgt mo seen acc) :
    accInv st tgt mo (seen ++ [c]) (fcmStep st tgt mo acc c) := by
  have extendSkip : ¬ (c.id ∉ st.usedContainerIds ∧ mo ≤ overlapOf tgt c) →
      accInv st tgt mo (seen ++ [c]) acc := by
    intro hno
    rcases hacc : acc with _ | ⟨b, bo, br, bsz⟩
    · rw [hacc] at h
      intro d hd
      simp only [List.mem_append, List.mem_singleton] at hd
      rcases hd with hd | rfl
      · exact h d hd
      · exact hno
    · rw [hacc] at h
      obtain ⟨hb1, hb2, hb3, hb4, hb5, hb6, hb7⟩ := h
      refine ⟨List.mem_append_left _ hb1, hb2, hb3, hb4, hb5, hb6, ?_⟩
      intro d hd hdu hdo
      simp only [List.mem_append, List.mem_singleton] at hd
      rcases hd with hd | rfl
      · exact hb7 d hd hdu hdo
      · exact absurd ⟨hdu, hdo⟩ hno
  unfold fcmStep
  by_cases hused : st.usedContainerIds.contains c.id
  · rw [if_pos hused]
    refine extendSkip ?_
    rintro ⟨hmem, _⟩
    exact hmem (by simpa using hused)
  · rw [if_neg hused]
    have hunused : c.id ∉ st.usedContainerIds := by simpa using hused
    by_cases hth : overlapOf tgt c < mo
    · rw [if_pos hth]
      refine extendSkip ?_
      rintro ⟨_, hmo⟩
      omega
    · rw [if_neg hth]
      have hmo : mo ≤ overlapOf tgt c := by omega
      rcases hacc : acc with _ | ⟨b, bo, br, bsz⟩
      · rw [hacc] at h
        dsimp only
        refine ⟨List.mem_append_right _ (by simp), hunused, hmo, rfl, rfl, rfl, ?_⟩
        intro d hd hdu hdo
        simp only [List.mem_append, List.mem_singleton] at hd
        rcases hd with hd | rfl
        · exact absurd ⟨hdu, hdo⟩ (h d hd)
        · exact betterCand_irrefl tgt d
      · rw [hacc] at h
        obtain ⟨hb1, hb2, hb3, hb4, hb5, hb6, hb7⟩ := h
        dsimp only
        by_cases hcond : overlapOf tgt c > bo
          ∨ (overlapOf tgt c = bo ∧ ratioOf (overlapOf tgt c) c.leafKeys.length > br)
          ∨ (overlapOf tgt c = bo ∧ ratioOf (overlapOf tgt c) c.leafKeys.length = br
              ∧ c.leafKeys.length < bsz)
      -- replace branch
        · rw [if_pos hcond]
          have hcb : betterCand tgt c b := by
            unfold betterCand
            rw [← hb4, ← hb5, ← hb6]
            exact hcond
          refine ⟨List.mem_append_right _ (by simp), hunused, hmo, rfl, rfl, rfl, ?_⟩
          intro d hd hdu hdo
          simp only [List.mem_append, List.mem_singleton] at hd
          rcases hd with hd | rfl
          · intro hdc
            exact hb7 d hd hdu hdo (betterCand_trans hdc hcb)
          · exact betterCand_irrefl tgt d
        · rw [if_neg hcond]
          have hncb : ¬ betterCand tgt c b := by
            unfold betterCand
            rw [← hb4, ← hb5, ← hb6]
            exact hcond
          refine ⟨List.mem_append_left _ hb1, hb2, hb3, hb4, hb5, hb6, ?_⟩
          intro d hd hdu hdo
          simp only [List.mem_append, List.mem_singleton] at hd
          rcases hd with hd | rfl
          · exact hb7 d hd hdu hdo
          · exact hncb

theorem fcmFold_spec {st : RecState} {tgt : List String} {mo : Nat} :
    ∀ (cs seen : List ContainerElement) (acc : Option (ContainerElement × Nat × ℚ × Nat)),
      accInv st tgt mo seen acc →
      accInv st tgt mo (seen ++ cs) (cs.foldl (fcmStep st tgt mo) acc) := by
  intro cs
  induction cs with
  | nil =>
    intro seen acc h
    simpa using h
  | cons c rest ih =>
    intro seen acc h
    have h2 := fcmStep_inv c h
    have h3 := ih (seen ++ [c]) (fcmStep st tgt mo acc c) h2
    simpa [List.append_assoc] using h3

/-- With an empty target key list no candidate can reach the threshold. -/
theorem no_qual_of_empty {conts : List ContainerElement} {st : RecState}
    {tgt : List String} (he : tgt.isEmpty) (d : ContainerElement) :
    ¬ qualifiesCand conts st tgt d := by
  rintro ⟨_, _, hmo⟩
  have htgt : tgt = [] := by
    cases tgt
    · rfl
    · simp [List.isEmpty] at he
  subst htgt
  have hov : overlapOf [] d = 0 := by
    unfold overlapOf
    have : ∀ l : List String, l.filter (fun k => List.contains ([] : List String) k) = [] := by
      intro l
      induction l with
      | nil => rfl
      | cons a r ihr => simp [List.filter_cons, ihr]
    simp [this]
  rw [hov] at hmo
  simp [minOverlapOf] at hmo

/-- The threshold formula: `ceil(0.3*k)` equals `(3k+9)/10` exactly. -/
theorem minOverlap_ceil (k : Nat) (hk : 3 < k) :
    ((minOverlapOf k : ℕ) : ℤ) = Int.ceil ((3 * (k : ℚ)) / 10) := by
  have hknot : ¬ k ≤ 3 := by omega
  unfold minOverlapOf
  rw [if_neg hknot]
  have hq := Nat.div_add_mod (3 * k + 9) 10
  have hm : (3 * k + 9) % 10 < 10 := Nat.mod_lt _ (by norm_num)
  symm
  rw [Int.ceil_eq_iff]
  constructor
  · rw [lt_div_iff (by norm_num : (0:ℚ) < 10)]
    push_cast
    have : 10 * ((3 * k + 9) / 10 : ℕ) ≤ 3 * k + 9 := by omega
    have hint : ((3 * k + 9) / 10 : ℕ) * 10 - 10 < 3 * (k : ℤ) := by
      push_cast at this ⊢
      omega
    calc ((((3 * k + 9) / 10 : ℕ) : ℚ) - 1) * 10
        = (((3 * k + 9) / 10 : ℕ) : ℚ) * 10 - 10 := by ring
      _ < 3 * (k : ℚ) := by exact_mod_cast hint
  · rw [div_le_iff (by norm_num : (0:ℚ) < 10)]
    have : 3 * k ≤ ((3 * k + 9) / 10 : ℕ) * 10 := by omega
    exact_mod_cast this

/-- Claim C6: `findContainerMatch` considers exactly the unused
candidates whose overlap with the target key set reaches the threshold
(1 when the target has at most 3 keys, `ceil(0.3*k)` otherwise), returns
a qualifying candidate never strictly beaten on (overlap, then
overlap/size ratio, then smaller size) by another qualifying candidate,
and when no candidate qualifies it returns nothing and
`applyContainerClasses` leaves the target's class name and the state
unchanged. -/
theorem findContainerMatch_spec (conts : List ContainerElement) (st : RecState)
    (tgt : List String) :
    (∀ c, findContainerMatch conts st tgt = some c →
        qualifiesCand conts st tgt c
        ∧ ∀ d, qualifiesCand conts st tgt d → ¬ betterCand tgt d c)
    ∧ (findContainerMatch conts st tgt = none → ∀ d, ¬ qualifiesCand conts st tgt d)
    ∧ (∀ cn, findContainerMatch conts st tgt = none →
        applyContainerStep conts st tgt cn = (cn, st, emptyLog))
    ∧ (tgt.length ≤ 3 → minOverlapOf tgt.length = 1)
    ∧ (3 < tgt.length →
        ((minOverlapOf tgt.length : ℕ) : ℤ) = Int.ceil ((3 * (tgt.length : ℚ)) / 10)) := by
  have hfold := @fcmFold_spec st tgt (minOverlapOf tgt.length)
    conts [] none (by intro d hd; simp at hd)
  simp only [List.nil_append] at hfold
  refine ⟨?_, ?_, ?_, ?_, minOverlap_ceil tgt.length⟩
  · intro c hc
    unfold findContainerMatch at hc
    by_cases he : tgt.isEmpty
    · rw [if_pos he] at hc
      exact Option.noConfusion hc
    · rw [if_neg he] at hc
      cases hf : conts.foldl (fcmStep st tgt (minOverlapOf tgt.length)) none with
      | none =>
        rw [hf] at hc
        exact Option.noConfusion hc
      | some x =>
        rw [hf] at hc
        simp only [Option.map_some', Option.some.injEq] at hc
        obtain ⟨b, bo, br, bsz⟩ := x
        rw [hf] at hfold
        obtain ⟨hb1, hb2, hb3, _, _, _, hb7⟩ := hfold
        simp only at hc
        subst hc
        refine ⟨⟨hb1, hb2, hb3⟩, ?_⟩
        rintro d ⟨hd1, hd2, hd3⟩
        exact hb7 d hd1 hd2 hd3
  · intro hc d
    unfold findContainerMatch at hc
    by_cases he : tgt.isEmpty
    · exact no_qual_of_empty he d
    · rw [if_neg he] at hc
      cases hf : conts.foldl (fcmStep st tgt (minOverlapOf tgt.length)) none with
      | none =>
        rw [hf] at hfold
        rintro ⟨hd1, hd2, hd3⟩
        exact hfold d hd1 ⟨hd2, hd3⟩
      | some x =>
        rw [hf] at hc
        simp at hc
  · intro cn hc
    unfold applyContainerStep
    by_cases he : tgt.isEmpty
    · rw [if_pos he]
    · rw [if_neg he, hc]
  · intro hk
    simp [minOverlapOf, hk]

/-- Witness for C6 at a concrete one-candidate instance. -/
theorem findContainerMatch_spec_witness :
    (qualifiesCand [⟨7, ["c"], ["k1"]⟩] ⟨[], []⟩ ["k1"] ⟨7, ["c"], ["k1"]⟩
      ∧ ∀ d, qualifiesCand [⟨7, ["c"], ["k1"]⟩] ⟨[], []⟩ ["k1"] d →
          ¬ betterCand ["k1"] d ⟨7, ["c"], ["k1"]⟩)
    ∧ applyContainerStep [] ⟨[], []⟩ ["k1"] none = (none, ⟨[], []⟩, emptyLog) :=
  ⟨(findContainerMatch_spec [⟨7, ["c"], ["k1"]⟩] ⟨[], []⟩ ["k1"]).1 ⟨7, ["c"], ["k1"]⟩ rfl,
   (findContainerMatch_spec [] ⟨[], []⟩ ["k1"]).2.2.1 none rfl⟩

/-! ### Button wrapping (C2)

The markers below are the button / buttons block closers; counting their
occurrences states "exactly one button block inside the buttons
wrapper".  The `LtFree` predicates say a JSON value is built from
`<`-free strings (and contains no numbers — none appear in button
attributes — keeping the proofs independent of integer printing). -/

def btnClose : List Char := '<' :: "!-- /wp:button -->".data

def btnsClose : List Char := '<' :: "!-- /wp:buttons -->".data

theorem countSub_chunk2 {pat a : List Char} (s : List Char) (h : blocksAll pat a = true) :
    countSub pat (a ++ s) = countSub pat s := countSub_chunk h s

theorem countSub_flat2 {pat a : List Char} (s : List Char) (hp : pat.head? = some '<')
    (h : ∀ c ∈ a, c ≠ '<') : countSub pat (a ++ s) = countSub pat s := by
  cases pat with
  | nil => simp at hp
  | cons p pr =>
    obtain rfl : p = '<' := by simpa using hp
    exact countSub_flat h s

theorem hexDigit_ne_lt : ∀ n, n < 16 → hexDigit n ≠ '<' := by decide

theorem jsonEscapeChar_no_lt (c : Char) (hc : c ≠ '<') : ∀ ch ∈ jsonEscapeChar c, ch ≠ '<' := by
  intro ch hch
  unfold jsonEscapeChar at hch
  split_ifs at hch with h1 h2 h3 h4 h5 h6 h7 h8
  · simp only [List.mem_cons, List.mem_singleton, List.not_mem_nil, or_false] at hch
    rcases hch with rfl | rfl <;> decide
  · simp only [List.mem_cons, List.mem_singleton, List.not_mem_nil, or_false] at hch
    rcases hch with rfl | rfl <;> decide
  · simp only [List.mem_cons, List.mem_singleton, List.not_mem_nil, or_false] at hch
    rcases hch with rfl | rfl <;> decide
  · simp only [List.mem_cons, List.mem_singleton, List.not_mem_nil, or_false] at hch
    rcases hch with rfl | rfl <;> decide
  · simp only [List.mem_cons, List.mem_singleton, List.not_mem_nil, or_false] at hch
    rcases hch with rfl | rfl <;> decide
  · simp only [List.mem_cons, List.mem_singleton, List.not_mem_nil, or_false] at hch
    rcases hch with rfl | rfl <;> decide
  · simp only [List.mem_cons, List.mem_singleton, List.not_mem_nil, or_false] at hch
    rcases hch with rfl | rfl <;> decide
  · simp only [List.mem_cons, List.mem_singleton, List.not_mem_nil, or_false] at hch
    rcases hch with rfl | rfl | rfl | rfl | rfl | rfl
    · decide
    · decide
    · decide
    · decide
    · exact hexDigit_ne_lt _ (by omega)
    · exact hexDigit_ne_lt _ (Nat.mod_lt _ (by norm_num))
  · simp only [List.mem_singleton] at hch
    subst hch
    exact hc

theorem jsonEscape_no_lt (s : String) (h : ∀ ch ∈ s.data, ch ≠ '<') :
    ∀ ch ∈ (jsonEscape s).data, ch ≠ '<' := by
  intro ch hch
  have hch2 : ch ∈ (s.data.map jsonEscapeChar).flatten := hch
  rw [List.mem_flatten] at hch2
  obtain ⟨w, hw, hchw⟩ := hch2
  rw [List.mem_map] at hw
  obtain ⟨c, hc, rfl⟩ := hw
  exact jsonEscapeChar_no_lt c (h c hc) ch hchw

mutual

/-- JSON values built entirely from `<`-free strings (no numbers). -/
def jvalLtFree : JVal → Prop
  | .jstr s => ∀ ch ∈ s.data, ch ≠ '<'
  | .jnum _ => False
  | .jbool _ => True
  | .jobj kvs => kvsLtFree kvs

def kvsLtFree : List (String × JVal) → Prop
  | [] => True
  | (k, v) :: rest => (∀ ch ∈ k.data, ch ≠ '<') ∧ jvalLtFree v ∧ kvsLtFree rest

end

mutual

theorem stringifyV_no_lt : ∀ (v : JVal), jvalLtFree v → ∀ ch ∈ (stringifyV v).data, ch ≠ '<'
  | .jstr s, h => by
    intro ch hch
    simp only [stringifyV, String.data_append] at hch
    rcases List.mem_append.mp hch with hch | hch
    · rcases List.mem_append.mp hch with hch | hch
      · simp only [List.mem_singleton] at hch
        subst hch
        decide
      · exact jsonEscape_no_lt s h ch hch
    · simp only [List.mem_singleton] at hch
      subst hch
      decide
  | .jnum n, h => absurd h (by simp [jvalLtFree])
  | .jbool b, h => by cases b <;> decide
  | .jobj kvs, h => by
    intro ch hch
    simp only [stringifyV, String.data_append] at hch
    rcases List.mem_append.mp hch with hch | hch
    · rcases List.mem_append.mp hch with hch | hch
      · simp only [List.mem_singleton] at hch
        subst hch
        decide
      · exact stringifyKvs_no_lt kvs h ch hch
    · simp only [List.mem_singleton] at hch
      subst hch
      decide

theorem stringifyKvs_no_lt : ∀ (kvs : List (String × JVal)), kvsLtFree kvs →
    ∀ ch ∈ (stringifyKvs kvs).data, ch ≠ '<'
  | [], _ => by simp [stringifyKvs]
  | [(k, v)], h => by
    intro ch hch
    obtain ⟨hk, hv, _⟩ := h
    simp only [stringifyKvs, String.data_append] at hch
    rcases List.mem_append.mp hch with hch | hch
    · rcases List.mem_append.mp hch with hch | hch
      · rcases List.mem_append.mp hch with hch | hch
        · simp only [List.mem_singleton] at hch
          subst hch
          decide
        · exact jsonEscape_no_lt k hk ch hch
      · simp only [List.mem_cons, List.mem_singleton, List.not_mem_nil, or_false] at hch
        rcases hch with rfl | rfl <;> decide
    · exact stringifyV_no_lt v hv ch hch
  | (k, v) :: r :: rest, h => by
    intro ch hch
    obtain ⟨hk, hv, hrest⟩ := h
    simp only [stringifyKvs, String.data_append] at hch
    rcases List.mem_append.mp hch with hch | hch
    · rcases List.mem_append.mp hch with hch | hch
      · rcases List.mem_append.mp hch with hch | hch
        · rcases List.mem_append.mp hch with hch | hch
          · rcases List.mem_append.mp hch with hch | hch
            · simp only [List.mem_singleton] at hch
              subst hch
              decide
            · exact jsonEscape_no_lt k hk ch hch
          · simp only [List.mem_cons, List.mem_singleton, List.not_mem_nil, or_false] at hch
            rcases hch with rfl | rfl <;> decide
        · exact stringifyV_no_lt v hv ch hch
      · simp only [List.mem_singleton] at hch
        subst hch
        decide
    · exact stringifyKvs_no_lt (r :: rest) hrest ch hch

end

mutual

theorem cleanVal_ltFree : ∀ (v v2 : JVal), jvalLtFree v → cleanVal v = some v2 → jvalLtFree v2
  | .jstr s, v2, h, he => by
    unfold cleanVal at he
    split at he
    · exact Option.noConfusion he
    · obtain rfl := Option.some.inj he
      exact h
  | .jnum n, v2, h, he => absurd h (by simp [jvalLtFree])
  | .jbool b, v2, h, he => by
    unfold cleanVal at he
    obtain rfl := Option.some.inj he
    trivial
  | .jobj kvs, v2, h, he => by
    have hclean := cleanKvs_ltFree kvs h
    unfold cleanVal at he
    split at he
    · exact Option.noConfusion he
    case h_2 k rest heq =>
      obtain rfl := Option.some.inj he
      show kvsLtFree (k :: rest)
      rw [← heq]
      exact hclean

theorem cleanKvs_ltFree : ∀ (kvs : List (String × JVal)), kvsLtFree kvs →
    kvsLtFree (cleanKvs kvs)
  | [], h => h
  | (k, v) :: rest, h => by
    obtain ⟨hk, hv, hrest⟩ := h
    unfold cleanKvs
    cases hcv : cleanVal v with
    | none => exact cleanKvs_ltFree rest hrest
    | some v2 => exact ⟨hk, cleanVal_ltFree v v2 hv hcv, cleanKvs_ltFree rest hrest⟩

end

theorem kvsLtFree_append : ∀ {a b : List (String × JVal)},
    kvsLtFree a → kvsLtFree b → kvsLtFree (a ++ b)
  | [], _, _, hb => hb
  | (k, v) :: rest, b, ha, hb => by
    obtain ⟨hk, hv, hrest⟩ := ha
    exact ⟨hk, hv, kvsLtFree_append hrest hb⟩

theorem blockJson_no_lt (attrs : List (String × JVal)) (h : kvsLtFree attrs) :
    ∀ ch ∈ (blockJson attrs).data, ch ≠ '<' := by
  intro ch hch
  have hclean := cleanKvs_ltFree attrs h
  unfold blockJson at hch
  split at hch
  · simp at hch
  case h_2 k rest heq =>
    simp only [String.data_append] at hch
    rcases List.mem_append.mp hch with hch | hch
    · simp only [List.mem_singleton] at hch
      subst hch
      decide
    · refine stringifyV_no_lt (.jobj (k :: rest)) ?_ ch hch
      show kvsLtFree (k :: rest)
      rw [← heq]
      exact hclean

theorem splitChar_chars (sep : Char) : ∀ (l : List Char), ∀ w ∈ splitChar sep l, ∀ ch ∈ w, ch ∈ l := by
  intro l
  induction l with
  | nil =>
    intro w hw ch hch
    simp only [splitChar, List.mem_singleton] at hw
    subst hw
    simp at hch
  | cons c rest ih =>
    intro w hw ch hch
    simp only [splitChar] at hw
    cases hs : splitChar sep rest with
    | nil =>
      rw [hs] at hw
      simp only [List.mem_singleton] at hw
      subst hw
      simp at hch
    | cons h t =>
      rw [hs] at hw
      dsimp only at hw
      by_cases hc : c = sep
      · rw [if_pos hc] at hw
        simp only [List.mem_cons] at hw
        rcases hw with rfl | hw
        · simp at hch
        · have := ih w (by rw [hs]; exact List.mem_cons.mpr hw) ch hch
          simp [this]
      · rw [if_neg hc] at hw
        simp only [List.mem_cons] at hw
        rcases hw with rfl | hw
        · simp only [List.mem_cons] at hch
          rcases hch with rfl | hch
          · simp
          · have := ih h (by rw [hs]; simp) ch hch
            simp [this]
        · have := ih w (by rw [hs]; simp [hw]) ch hch
          simp [this]

theorem joinSpace_no_lt : ∀ (k : List String), (∀ s ∈ k, ∀ ch ∈ s.data, ch ≠ '<') →
    ∀ ch ∈ (joinSpace k).data, ch ≠ '<'
  | [], _ => by simp [joinSpace]
  | [s], h => by
    intro ch hch
    exact h s (by simp) ch hch
  | s :: r :: rest, h => by
    intro ch hch
    simp only [joinSpace, String.data_append] at hch
    rcases List.mem_append.mp hch with hch | hch
    · rcases List.mem_append.mp hch with hch | hch
      · exact h s (by simp) ch hch
      · simp only [List.mem_singleton] at hch
        subst hch
        decide
    · exact joinSpace_no_lt (r :: rest) (fun x hx => h x (by simp only [List.mem_cons]; simp only [List.mem_cons] at hx; tauto)) ch hch

theorem applyClassName_attrs_ltFree (className : Option String)
    (attrs0 : List (String × JVal)) (cls0 : List String)
    (hcn : ∀ cn, className = some cn → ∀ ch ∈ cn.data, ch ≠ '<')
    (h0 : kvsLtFree attrs0) : kvsLtFree (applyClassName className attrs0 cls0).1 := by
  unfold applyClassName
  cases hc : className with
  | none => exact h0
  | some c =>
    dsimp only
    by_cases he : c = ""
    · rw [if_pos he]
      exact h0
    · rw [if_neg he]
      exact kvsLtFree_append h0 ⟨by decide, hcn c hc, trivial⟩

theorem applyClassName_cls_ltFree (className : Option String)
    (attrs0 : List (String × JVal)) (cls0 : List String)
    (hcn : ∀ cn, className = some cn → ∀ ch ∈ cn.data, ch ≠ '<')
    (h0 : ∀ s ∈ cls0, ∀ ch ∈ s.data, ch ≠ '<') :
    ∀ s ∈ (applyClassName className attrs0 cls0).2, ∀ ch ∈ s.data, ch ≠ '<' := by
  unfold applyClassName
  cases hc : className with
  | none => exact h0
  | some c =>
    dsimp only
    by_cases he : c = ""
    · rw [if_pos he]
      exact h0
    · rw [if_neg he]
      intro s hs ch hch
      rcases List.mem_append.mp hs with hs | hs
      · exact h0 s hs ch hch
      · have hs2 := List.mem_of_mem_filter hs
        rw [List.mem_map] at hs2
        obtain ⟨w, hw, rfl⟩ := hs2
        exact hcn c hc ch (splitChar_chars ' ' c.data w hw ch hch)

theorem btnVariantData_attrs_ltFree (v : String) : kvsLtFree (btnVariantData v).1 := by
  unfold btnVariantData
  split_ifs <;> simp only [kvsLtFree, jvalLtFree, outlineBorderStyle, BlockStyle.toJson,
    SideValues.toJson, GapValue.toJson, jsonOptStr] <;> refine ⟨by decide, ?_, ?_⟩ <;>
    first
      | trivial
      | exact ⟨by decide, by decide, trivial⟩
      | exact ⟨by decide, ⟨by decide, by decide, trivial⟩, trivial⟩

theorem btnVariantData_cls_ltFree (v : String) :
    ∀ s ∈ (btnVariantData v).2.2, ∀ ch ∈ s.data, ch ≠ '<' := by
  unfold btnVariantData
  split_ifs <;> decide

theorem btnVariantData_style (v : String) : wpInlineStyle (btnVariantData v).2.1 = "" := by
  unfold btnVariantData
  split_ifs <;> rfl

/-- The inner content of the buttons wrapper: the buttons div holding
exactly one button block holding the single anchor element. -/
def buttonsInner (btnAttrs : List (String × JVal)) (btnCls : List String)
    (hrefE contentE : String) : String :=
  "<div class=\"" ++ joinSpace ["wp-block-buttons", "is-layout-flex"] ++ "\">\n"
    ++ block "button" btnAttrs
        ("<div class=\"wp-block-button\"><a class=\"" ++ joinSpace btnCls ++ "\" href=\""
          ++ hrefE ++ "\"" ++ ">" ++ contentE ++ "</a></div>")
    ++ "\n</div>"

theorem buttonsInner_counts (a : List (String × JVal)) (k : List String)
    (hrefE contentE : String)
    (hjp : ∀ ch ∈ (blockJson a).data, ch ≠ '<')
    (hk : ∀ ch ∈ (joinSpace k).data, ch ≠ '<')
    (hh : ∀ ch ∈ hrefE.data, ch ≠ '<')
    (he : ∀ ch ∈ contentE.data, ch ≠ '<') :
    countSub btnClose (buttonsInner a k hrefE contentE).data = 1
    ∧ countSub btnsClose (buttonsInner a k hrefE contentE).data = 0 := by
  unfold buttonsInner block
  simp only [String.data_append, List.append_assoc]
  constructor
  · rw [countSub_chunk2 _ (by decide), countSub_chunk2 _ (by decide),
      countSub_chunk2 _ (by decide), countSub_chunk2 _ (by decide),
      countSub_chunk2 _ (by decide), countSub_flat2 _ (by decide) hjp,
      countSub_chunk2 _ (by decide), countSub_chunk2 _ (by decide),
      countSub_flat2 _ (by decide) hk, countSub_chunk2 _ (by decide),
      countSub_flat2 _ (by decide) hh, countSub_chunk2 _ (by decide),
      countSub_chunk2 _ (by decide), countSub_flat2 _ (by decide) he]
    decide
  · rw [countSub_chunk2 _ (by decide), countSub_chunk2 _ (by decide),
      countSub_chunk2 _ (by decide), countSub_chunk2 _ (by decide),
      countSub_chunk2 _ (by decide), countSub_flat2 _ (by decide) hjp,
      countSub_chunk2 _ (by decide), countSub_chunk2 _ (by decide),
      countSub_flat2 _ (by decide) hk, countSub_chunk2 _ (by decide),
      countSub_flat2 _ (by decide) hh, countSub_chunk2 _ (by decide),
      countSub_chunk2 _ (by decide), countSub_flat2 _ (by decide) he]
    decide

/-- The final button block attributes (variant data plus recovered class
name), as computed by `renderButton`. -/
def buttonAttrsOf (attrs : NodeAttributes) (className : Option String) :
    List (String × JVal) :=
  (applyClassName className (btnVariantData (jsOrS attrs.variant "primary")).1
    (btnVariantData (jsOrS attrs.variant "primary")).2.2).1

/-- The final anchor class token list, as computed by `renderButton`. -/
def buttonClassesOf (attrs : NodeAttributes) (className : Option String) : List String :=
  (applyClassName className (btnVariantData (jsOrS attrs.variant "primary")).1
    (btnVariantData (jsOrS attrs.variant "primary")).2.2).2

/-- Claim C2: for every IR node of kind button — any content, href,
variant and (angle-bracket-free) class name — `renderNode` returns a
`buttons` group block whose inner content holds exactly one `button`
block (one button-closer occurrence, no nested buttons wrapper) around
the single anchor element; the button block never appears outside that
wrapper in the fragment. -/
theorem renderNode_button_wrapped (tokens : DesignTokens) (content : Option String)
    (attrs : NodeAttributes) (children : List IRNode)
    (irStyle : Option (List (String × String))) (className : Option String)
    (hcn : ∀ cn, className = some cn → ∀ ch ∈ cn.data, ch ≠ '<') :
    renderNode tokens (.mk .button content attrs children irStyle className)
      = block "buttons" []
          (buttonsInner (buttonAttrsOf attrs className) (buttonClassesOf attrs className)
            (escapeAttr (jsOrS attrs.href "#")) (escapeHtml (content.getD "")))
    ∧ countSub btnClose (buttonsInner (buttonAttrsOf attrs className)
        (buttonClassesOf attrs className) (escapeAttr (jsOrS attrs.href "#"))
        (escapeHtml (content.getD ""))).data = 1
    ∧ countSub btnsClose (buttonsInner (buttonAttrsOf attrs className)
        (buttonClassesOf attrs className) (escapeAttr (jsOrS attrs.href "#"))
        (escapeHtml (content.getD ""))).data = 0 := by
  have hattrs : kvsLtFree (buttonAttrsOf attrs className) :=
    applyClassName_attrs_ltFree className _ _ hcn
      (btnVariantData_attrs_ltFree (jsOrS attrs.variant "primary"))
  have hcls : ∀ s ∈ buttonClassesOf attrs className, ∀ ch ∈ s.data, ch ≠ '<' :=
    applyClassName_cls_ltFree className _ _ hcn
      (btnVariantData_cls_ltFree (jsOrS attrs.variant "primary"))
  have hcounts := buttonsInner_counts (buttonAttrsOf attrs className)
    (buttonClassesOf attrs className)
    (escapeAttr (jsOrS attrs.href "#")) (escapeHtml (content.getD ""))
    (blockJson_no_lt _ hattrs)
    (joinSpace_no_lt _ hcls)
    (fun ch hch heq => escapeAttr_no_lt (jsOrS attrs.href "#") (heq ▸ hch))
    (fun ch hch heq => escapeHtml_no_lt (content.getD "") (heq ▸ hch))
  refine ⟨?_, hcounts.1, hcounts.2⟩
  show renderButton content attrs className = _
  unfold renderButton buttonsInner buttonAttrsOf buttonClassesOf
  dsimp only
  rw [btnVariantData_style]
  rw [String.append_empty]

/-- Witness for C2 at Scenario B's concrete button (content "Buy", href
"/buy", primary variant, no class name). -/
theorem renderNode_button_wrapped_witness :
    renderNode scenarioTokens (.mk .button (some "Buy") { href := some "/buy" } [] none none)
      = block "buttons" []
          (buttonsInner (buttonAttrsOf { href := some "/buy" } none)
            (buttonClassesOf { href := some "/buy" } none)
            (escapeAttr (jsOrS (some "/buy") "#")) (escapeHtml "Buy"))
    ∧ countSub btnClose (buttonsInner (buttonAttrsOf { href := some "/buy" } none)
        (buttonClassesOf { href := some "/buy" } none)
        (escapeAttr (jsOrS (some "/buy") "#")) (escapeHtml "Buy")).data = 1
    ∧ countSub btnsClose (buttonsInner (buttonAttrsOf { href := some "/buy" } none)
        (buttonClassesOf { href := some "/buy" } none)
        (escapeAttr (jsOrS (some "/buy") "#")) (escapeHtml "Buy")).data = 0 :=
  renderNode_button_wrapped scenarioTokens (some "Buy") { href := some "/buy" } [] none none
    (fun cn h => Option.noConfusion h)

end HtmlToWp
